import Mathlib

/-!
# Verification of the starbox module-resolution engine

A shallow embedding of the `starbox` Go package (github.com/1set/starbox).
Pure Go functions become Lean functions; Go maps become association lists
whose write operation overwrites the value of an existing key in place;
Go's `(value, error)` returns become `Except String`.  Module loaders are
opaque function values in Go; they are embedded as a tagged inductive type
`Loader` so that distinct provenances give distinct values.  The dynamic
module resolver is a host callback and is embedded as a pure Lean function;
the list of names it was applied to (its invocation trace) is returned
alongside the result so that invocation-count properties can be stated.

The full built-in module name list is produced by the external script
engine (`starlet.GetAllBuiltinModuleNames`), so every definition is
parameterised over that list (`fullNames`).
-/

/-- Module names are plain strings. -/
abbrev ModName := String

/-- A module loader (Go: `starlet.ModuleLoader`, an opaque function value).
The tag records the provenance of the value:
`builtin n` is the script engine's loader for built-in module `n`,
`userlog` is the replacement log module built from the user logger,
`custom i` is a host-registered custom loader, and `dyn i` is a loader
produced by the dynamic resolver.  Loaders distinct in Go are embedded as
distinct values of this type. -/
inductive Loader where
  | builtin (name : ModName)
  | userlog
  | custom (id : Nat)
  | dyn (id : Nat)
deriving DecidableEq, Repr

/-- An association list standing for a Go `map[string]ModuleLoader`. -/
abbrev LoaderMap := List (ModName × Loader)

/-- First value bound to `k`, standing for Go map lookup (key sets are kept
duplicate-free by the write operation below). -/
def lookupLoader (m : LoaderMap) (k : ModName) : Option Loader :=
  match m with
  | [] => none
  | (k', v) :: rest => if k' = k then some v else lookupLoader rest k

/-- Go map assignment `m[k] = v`: overwrite the value of an existing key in
place, otherwise append the new binding. -/
def writeLoader (m : LoaderMap) (k : ModName) (v : Loader) : LoaderMap :=
  match m with
  | [] => [(k, v)]
  | (k', v') :: rest => if k' = k then (k, v) :: rest else (k', v') :: writeLoader rest k v

/-- Go `removeUniques` (source file of string helpers): walks `ss`, dropping
strings in `removes` and strings already emitted (`seen`). -/
def removeUniquesAux (removes : List ModName) : List ModName → List ModName → List ModName
  | [], _seen => []
  | s :: rest, seen =>
    if s ∉ removes ∧ s ∉ seen then s :: removeUniquesAux removes rest (s :: seen)
    else removeUniquesAux removes rest seen

/-- Go `removeUniques(ss, removes...)`: removes the given strings from `ss`
and returns the survivors without duplicates, in original order. -/
def removeUniques (ss removes : List ModName) : List ModName :=
  removeUniquesAux removes ss []

/-- Go `appendUniques` inner loops: emit each string of the list not yet
seen, threading the `seen` set. -/
def appendUniquesAux : List ModName → List ModName → List ModName
  | [], _seen => []
  | s :: rest, seen =>
    if s ∈ seen then appendUniquesAux rest seen
    else s :: appendUniquesAux rest (s :: seen)

/-- Go `appendUniques(ss, appends...)`: one pass over `ss` then `appends`
with a shared `seen` set, keeping first occurrences. -/
def appendUniques (ss appends : List ModName) : List ModName :=
  appendUniquesAux (ss ++ appends) []

/-- Modelled from the spec (§4.2): `intersectStrings` is declared in a
repository source file that is not part of this snapshot; per the spec,
`intersect(a, b)` returns the elements present in both lists, in the order
determined by `a`. -/
def intersectStrings (a b : List ModName) : List ModName :=
  a.filter (· ∈ b)

/-- Sorted insertion dropping duplicates (helper for `mapSetStrings`).
The comparison is on the underlying character lists, which is exactly the
`<` order on `String` (and, unlike `String.decLt`, evaluates inside the
kernel). -/
def insertSorted (a : ModName) : List ModName → List ModName
  | [] => [a]
  | b :: rest =>
    if a.data < b.data then a :: b :: rest
    else if a = b then b :: rest
    else b :: insertSorted a rest

/-- Modelled from the spec (§4.4 step 4, P2): `stringsMapSet`/`mapSetStrings`
are declared in a repository source file missing from this snapshot; the
spec fixes their composition as the sorted duplicate-free list of the union
of the name lists ("Final ResolvedNameList = sorted-unique union of all
three name sets").  `sortDedup` is that sorted-unique list of the elements
of its argument. -/
def sortDedup (l : List ModName) : List ModName :=
  l.foldr insertSorted []

/-- Go `getModuleSet` (module.go): the named-set lookup table.  The Go map
`moduleSets` holds the four named sets; a missing key falls through to the
empty-string check. -/
def getModuleSet (fullNames : List ModName) (modSet : String) : Except String (List ModName) :=
  if modSet = "none" then .ok []
  else if modSet = "safe" then .ok (removeUniques fullNames ["file", "path", "runtime", "http", "log"])
  else if modSet = "network" then .ok (removeUniques fullNames ["file", "path", "runtime"])
  else if modSet = "full" then .ok (appendUniques fullNames [])
  else if modSet = "" then .ok []
  else .error ("unknown module set: " ++ modSet)

/-- Modelled from the spec (§6): the external script engine's built-in
loader factory `starlet.MakeBuiltinModuleLoaderList`; it yields one built-in
loader per name and fails on a name it does not recognise. -/
def makeBuiltinLoaderList (fullNames names : List ModName) : Except String (List Loader) :=
  if names.all (· ∈ fullNames) then .ok (names.map Loader.builtin)
  else .error "starlet: module not found"

/-- Modelled from the spec (§6): the external script engine's built-in
loader factory `starlet.MakeBuiltinModuleLoaderMap`, keyed by name. -/
def makeBuiltinLoaderMap (fullNames names : List ModName) : Except String LoaderMap :=
  if names.all (· ∈ fullNames) then .ok (names.map fun n => (n, Loader.builtin n))
  else .error "starlet: module not found"

/-- The condition of the loop in `extractStarletModules` replacing the
`log` module: `name == "log" && s.userLog != nil`. -/
def isUserLogName (userLog : Bool) (n : ModName) : Bool :=
  n = "log" && userLog

/-- Go `extractStarletModules` (module.go): resolve the named set, add the
explicitly named modules recognised as built-ins, replace the `log` module
with the user-log module when a user logger is set, and materialise the
result through the engine's built-in loader factories. -/
def extractStarletModules (fullNames : List ModName) (userLog : Bool) (setName : String)
    (nameMods : List ModName) : Except String (List Loader × LoaderMap × List ModName) :=
  match getModuleSet fullNames setName with
  | .error e => .error e
  | .ok set0 =>
    if (appendUniques set0 (intersectStrings fullNames nameMods)).isEmpty then
      .ok ([], [], appendUniques set0 (intersectStrings fullNames nameMods))
    else
      match makeBuiltinLoaderList fullNames
        ((appendUniques set0 (intersectStrings fullNames nameMods)).filter
          fun n => !isUserLogName userLog n) with
      | .error e => .error e
      | .ok pre =>
        match makeBuiltinLoaderMap fullNames
          ((appendUniques set0 (intersectStrings fullNames nameMods)).filter
            fun n => !isUserLogName userLog n) with
        | .error e => .error e
        | .ok lazy =>
          .ok (pre ++ ((appendUniques set0 (intersectStrings fullNames nameMods)).filter
                 (isUserLogName userLog)).map (fun _ => Loader.userlog),
               lazy ++ ((appendUniques set0 (intersectStrings fullNames nameMods)).filter
                 (isUserLogName userLog)).map (fun n => (n, Loader.userlog)),
               appendUniques set0 (intersectStrings fullNames nameMods))

/-- Go `extractLocalModules` (module.go): keep every custom registration
whose name is not already claimed by the built-in step; emit the kept
loaders, the name-keyed map, and the kept names. -/
def extractLocalModules (loadMods : LoaderMap) (existMods : List ModName) :
    List Loader × LoaderMap × List ModName :=
  let kept := loadMods.filter fun p => p.1 ∉ existMods
  (kept.map (·.2), kept, kept.map (·.1))

/-- Go `extractDynamicModules` (module.go): walk the explicitly added names,
skip names already resolved (`existMods` is fixed for the whole walk), fail
with the bare `ErrModuleNotFound` when no resolver is configured, propagate
resolver errors, treat a `nil` loader as `"module not found: <name>"`, and
collect successful loaders.  The second component of the result is the
invocation trace: the names the resolver was applied to, in order.  The map
write is modelled by keeping the chronologically later binding. -/
def extractDynamicModules (metaLoad : Option (ModName → Except String (Option Loader)))
    (nameMods existMods : List ModName) :
    Except String (List Loader × LoaderMap × List ModName) × List ModName :=
  match nameMods with
  | [] => (.ok ([], [], []), [])
  | name :: rest =>
    if name ∈ existMods then extractDynamicModules metaLoad rest existMods
    else
      match metaLoad with
      | none => (.error "module not found", [])
      | some f =>
        match f name with
        | .error e => (.error e, [name])
        | .ok none => (.error ("module not found: " ++ name), [name])
        | .ok (some l) =>
          match extractDynamicModules metaLoad rest existMods with
          | (.error e, tr) => (.error e, name :: tr)
          | (.ok (pre, lazy, names), tr) =>
            (.ok (l :: pre,
                  (if (lookupLoader lazy name).isSome then lazy else (name, l) :: lazy),
                  name :: names),
             name :: tr)

/-- The per-session configuration relevant to module resolution and the
execution lifecycle (Go: the `Starbox` struct, ctor.go).  External values
(machine, print function, logger, filesystem) are reduced to the data the
claims observe: globals values are opaque host values numbered by `Nat`,
`modFS` records whether a module filesystem is set, `userLog` whether a
user logger is set. -/
structure Box where
  hasExec : Bool := false
  execTimes : Nat := 0
  structTag : String := ""
  printFunc : Bool := false
  globals : List (String × Nat) := []
  modSet : String := ""
  namedMods : List ModName := []
  loadMods : LoaderMap := []
  scriptMods : List (String × String) := []
  modFS : Bool := false
  modNames : List ModName := []
  dynMods : Option (ModName → Except String (Option Loader)) := none
  userLog : Bool := false

/-- Go `extractModLoaders` (module.go): the three-step resolution pipeline
followed by the merge.  Also returns the dynamic resolver's invocation
trace. -/
def extractModLoaders (fullNames : List ModName) (b : Box) :
    Except String (List Loader × LoaderMap × List ModName) × List ModName :=
  match extractStarletModules fullNames b.userLog b.modSet b.namedMods with
  | .error e => (.error e, [])
  | .ok (starPre, starLazy, starName) =>
    match extractLocalModules b.loadMods starName with
    | (cusPre, cusLazy, cusName) =>
      match extractDynamicModules b.dynMods b.namedMods (starName ++ cusName) with
      | (.error e, tr) => (.error e, tr)
      | (.ok (dynPre, dynLazy, dynName), tr) =>
        (.ok (starPre ++ cusPre ++ dynPre,
              starLazy ++ cusLazy ++ dynLazy,
              sortDedup (starName ++ cusName ++ dynName)),
         tr)

/-- Go `prepareEnv` (exec.go): run the resolution once, then append the
registered script-module file names to the resolved name list (when a
module filesystem has not been set) and record the final list, which is
exposed to the script as the `__modules__` global. -/
def prepareEnv (fullNames : List ModName) (b : Box) : Except String Box :=
  match (extractModLoaders fullNames b).1 with
  | .error e => .error e
  | .ok (_pre, _lazy, names) =>
    if b.scriptMods ≠ [] ∧ b.modFS = false then
      .ok { b with modNames := names ++ b.scriptMods.map (·.1), modFS := true }
    else
      .ok { b with modNames := names }

/-- Result of an execution call: the configuration error it returned (if
any), the session state afterwards, and whether script evaluation was
reached (the evaluation itself is the external script engine's work). -/
structure RunResult where
  err : Option String
  box : Box
  evaluated : Bool

/-- Go `Run`/`prepareScriptEnv` (exec.go): on a session that has already
executed, only the script content is swapped; on the first call the
environment is prepared, and a preparation error is returned before any
evaluation, leaving the session state untouched. -/
def Box.run (fullNames : List ModName) (b : Box) : RunResult :=
  if b.hasExec then
    { err := none, box := { b with execTimes := b.execTimes + 1 }, evaluated := true }
  else
    match prepareEnv fullNames b with
    | .error e => { err := some e, box := b, evaluated := false }
    | .ok b' =>
      { err := none
        box := { b' with hasExec := true, execTimes := b'.execTimes + 1 }
        evaluated := true }

/-- Modelled from the spec (§4.3, P6): loader materialisation is performed
by the external script engine; it invokes every loader of the preload list
once while building the initial globals, and the loader stored in the
lazyload map once when that module is first loaded.  This counts the
invocations a given loader value receives over the first execution.
Resolution itself never applies custom loaders. -/
def materializeInvocations (pre : List Loader) (lazy : LoaderMap) (l : Loader) : Nat :=
  pre.count l + (lazy.map (·.2)).count l

/-- Go map assignment for an arbitrary value type (overwrite in place or
append). -/
def writeAssoc {α : Type} (m : List (String × α)) (k : String) (v : α) : List (String × α) :=
  match m with
  | [] => [(k, v)]
  | (k', v') :: rest => if k' = k then (k, v) :: rest else (k', v') :: writeAssoc rest k v

/-!
## Configuration mutators and the freeze gate

Every configuration mutator of ctor.go (and `AttachMemory` of the shared
memory file) starts with `if s.hasExec { log.DPanic(...) }` and then applies
the mutation.  `log` is a `zap.SugaredLogger`; `DPanic` panics only when the
logger is in development mode.  The package `init` (z_log.go) installs a
no-op logger, so by default `DPanic` logs nowhere and does not panic, and a
development logger can be installed through `SetLog`.  The mutators are
therefore modelled with a `dev` flag: when `dev` is true and the session has
executed, the call panics (result `none`) before the mutation; otherwise the
mutation is applied (result `some`).  No mutator ever returns a recoverable
error value. -/

/-- Go `SetStructTag` (ctor.go). -/
def setStructTag (dev : Bool) (b : Box) (tag : String) : Option Box :=
  if b.hasExec ∧ dev then none else some { b with structTag := tag }

/-- Go `SetPrintFunc` (ctor.go); the function value itself is external, the
model records that one is set. -/
def setPrintFunc (dev : Bool) (b : Box) (fnSet : Bool) : Option Box :=
  if b.hasExec ∧ dev then none else some { b with printFunc := fnSet }

/-- Go `SetFS` (ctor.go); the model records whether a filesystem is set. -/
def setFS (dev : Bool) (b : Box) (hfs : Bool) : Option Box :=
  if b.hasExec ∧ dev then none else some { b with modFS := hfs }

/-- Go `SetModuleSet` (ctor.go). -/
def setModuleSet (dev : Bool) (b : Box) (modSet : String) : Option Box :=
  if b.hasExec ∧ dev then none else some { b with modSet := modSet }

/-- Go `SetDynamicModuleLoader` (ctor.go). -/
def setDynamicModuleLoader (dev : Bool) (b : Box)
    (loader : Option (ModName → Except String (Option Loader))) : Option Box :=
  if b.hasExec ∧ dev then none else some { b with dynMods := loader }

/-- Go `AddKeyValue` (ctor.go); host values are opaque and numbered. -/
def addKeyValue (dev : Bool) (b : Box) (key : String) (value : Nat) : Option Box :=
  if b.hasExec ∧ dev then none else some { b with globals := writeAssoc b.globals key value }

/-- Go `AddNamedModules` (ctor.go): appends without deduplication. -/
def addNamedModules (dev : Bool) (b : Box) (moduleNames : List ModName) : Option Box :=
  if b.hasExec ∧ dev then none else some { b with namedMods := b.namedMods ++ moduleNames }

/-- Go `AddModuleLoader` (ctor.go): last registration for a name wins. -/
def addModuleLoader (dev : Bool) (b : Box) (moduleName : ModName) (l : Loader) : Option Box :=
  if b.hasExec ∧ dev then none else some { b with loadMods := writeLoader b.loadMods moduleName l }

/-- Go `AttachMemory` (shared-memory file): stores the shared dictionary as
a global; the dictionary value is opaque and numbered. -/
def attachMemory (dev : Bool) (b : Box) (name : String) (memory : Nat) : Option Box :=
  if b.hasExec ∧ dev then none else some { b with globals := writeAssoc b.globals name memory }

/-- Go `AddModuleScript` (ctor.go): trims the name, appends a `.star`
suffix when missing, and stores the script under that file name. -/
def addModuleScript (dev : Bool) (b : Box) (moduleName moduleScript : String) : Option Box :=
  if b.hasExec ∧ dev then none
  else
    let name := moduleName.trim
    let name := if name.endsWith ".star" then name else name ++ ".star"
    some { b with scriptMods := writeAssoc b.scriptMods name moduleScript }

/-!
## The fluent run-configuration builder (runner.go)

`RunnerConfig` methods copy the receiver struct (`n := *c`) and return a
pointer to the copy.  The `extras` field is a Go map, i.e. a reference: the
shallow copy shares it with the receiver.  The model makes the reference
explicit with a small heap of maps addressed by `Nat` references; scalar
fields are plain values.  Host values stored in extras are opaque and
numbered. -/

abbrev Extras := List (String × Nat)

/-- The heap of live extras maps, addressed by reference. -/
abbrev Heap := List (Nat × Extras)

/-- Dereference (a dangling reference reads as an empty map; the builder
never creates one). -/
def heapGet (h : Heap) (r : Nat) : Extras :=
  match h with
  | [] => []
  | (r', m) :: rest => if r' = r then m else heapGet rest r

/-- Overwrite the map a reference points to. -/
def heapSet (h : Heap) (r : Nat) (m : Extras) : Heap :=
  match h with
  | [] => [(r, m)]
  | (r', m') :: rest => if r' = r then (r, m) :: rest else (r', m') :: heapSet rest r m

/-- A reference unused by the heap. -/
def freshRef (h : Heap) : Nat :=
  h.foldr (fun p acc => max (p.1 + 1) acc) 0

/-- Go `RunnerConfig` (runner.go).  External values (context, condition
function, box) are reduced to whether they are set. -/
structure RunnerConfig where
  boxSet : Bool := false
  fileName : String := ""
  script : String := ""
  ctxSet : Bool := false
  timeout : Int := 0
  condSet : Bool := false
  extras : Option Nat := none
deriving DecidableEq, Repr

/-- The extras mapping observable through a configuration object. -/
def observeExtras (h : Heap) (c : RunnerConfig) : Option Extras :=
  c.extras.map (heapGet h)

/-- Go `(*RunnerConfig).FileName`. -/
def RunnerConfig.withFileName (c : RunnerConfig) (name : String) : RunnerConfig :=
  { c with fileName := name }

/-- Go `(*RunnerConfig).Script`. -/
def RunnerConfig.withScript (c : RunnerConfig) (content : String) : RunnerConfig :=
  { c with script := content }

/-- Go `(*RunnerConfig).Context`. -/
def RunnerConfig.withContext (c : RunnerConfig) (ctxSet : Bool) : RunnerConfig :=
  { c with ctxSet := ctxSet }

/-- Go `(*RunnerConfig).Timeout`. -/
def RunnerConfig.withTimeout (c : RunnerConfig) (timeout : Int) : RunnerConfig :=
  { c with timeout := timeout }

/-- Go `(*RunnerConfig).Inspect`: installs a constant condition function. -/
def RunnerConfig.withInspect (c : RunnerConfig) (_force : Bool) : RunnerConfig :=
  { c with condSet := true }

/-- Go `(*RunnerConfig).InspectCond`. -/
def RunnerConfig.withInspectCond (c : RunnerConfig) : RunnerConfig :=
  { c with condSet := true }

/-- Go `(*RunnerConfig).Starbox`. -/
def RunnerConfig.withStarbox (c : RunnerConfig) (boxSet : Bool) : RunnerConfig :=
  { c with boxSet := boxSet }

/-- Go `(*RunnerConfig).KeyValue` (runner.go): copies the receiver; when the
copy's extras map is nil a fresh map is allocated, otherwise the shared map
is written in place. -/
def RunnerConfig.keyValue (c : RunnerConfig) (h : Heap) (k : String) (v : Nat) :
    Heap × RunnerConfig :=
  match c.extras with
  | none =>
    let r := freshRef h
    (heapSet h r (writeAssoc [] k v), { c with extras := some r })
  | some r => (heapSet h r (writeAssoc (heapGet h r) k v), c)

/-- Go `(*RunnerConfig).KeyValueMap` (runner.go): merges the given pairs
into the (possibly shared) extras map. -/
def RunnerConfig.keyValueMap (c : RunnerConfig) (h : Heap) (kvs : Extras) :
    Heap × RunnerConfig :=
  match c.extras with
  | none =>
    let r := freshRef h
    (heapSet h r (kvs.foldl (fun m p => writeAssoc m p.1 p.2) []), { c with extras := some r })
  | some r => (heapSet h r (kvs.foldl (fun m p => writeAssoc m p.1 p.2) (heapGet h r)), c)

/-- The configuration of the C1 witness: the name `base64` is both selected
as a built-in (explicitly named) and registered as a custom loader. -/
def c1Box : Box :=
  { modSet := "", namedMods := ["base64"], loadMods := [("base64", Loader.custom 0)] }

/-- A resolver that produces a loader for every name. -/
def c2Resolver : ModName → Except String (Option Loader) := fun _ => .ok (some (Loader.dyn 0))

/-- A session registering the same unmatched explicit name twice, with a
resolver configured. -/
def c2BoxDup : Box := { namedMods := ["foo", "foo"], dynMods := some c2Resolver }

/-- A session with one unmatched explicit name and no resolver. -/
def c2BoxNoResolver : Box := { namedMods := ["bar"] }

/-- A session with one resolved built-in module and one registered script
module whose file name sorts before it. -/
def c4Box : Box :=
  { modSet := "", namedMods := ["random"], scriptMods := [("abc.star", "a = 1")] }

/-- A session registering the unmatched explicit name `foo` twice, resolved
dynamically both times. -/
def c5Box : Box :=
  { namedMods := ["foo", "foo"], dynMods := some (fun _ => .ok (some (Loader.dyn 0))) }

/-- The configuration of the C5 witness: one built-in, one custom and one
dynamically resolved module. -/
def c5WBox : Box :=
  { modSet := "", namedMods := ["base64", "foo"], loadMods := [("mine", Loader.custom 0)],
    dynMods := some (fun _ => .ok (some (Loader.dyn 0))) }

/-- A session that has already executed once. -/
def c6BoxAfter : Box := { hasExec := true, execTimes := 1 }

/-- The configuration of the C9 witness: one custom loader `mine`,
no built-in modules, no resolver. -/
def c9Box : Box := { loadMods := [("mine", Loader.custom 0)] }

/-- First builder step: `NewRunConfig().KeyValue("a", 1)` — allocates the
extras map. -/
def c10Step1 : Heap × RunnerConfig := RunnerConfig.keyValue {} [] "a" 1

/-- Second builder step: `.KeyValue("b", 2)` on the previous configuration —
the copy shares the extras map with its receiver. -/
def c10Step2 : Heap × RunnerConfig := RunnerConfig.keyValue c10Step1.2 c10Step1.1 "b" 2

/-!
## Supporting lemmas: string-set utilities -/

theorem mem_appendUniquesAux (n : ModName) :
    ∀ (l seen : List ModName), n ∈ appendUniquesAux l seen ↔ n ∈ l ∧ n ∉ seen := by
  intro l
  induction l with
  | nil => intro seen; simp [appendUniquesAux]
  | cons s rest ih =>
    intro seen
    by_cases hs : s ∈ seen
    · simp only [appendUniquesAux, if_pos hs, ih, List.mem_cons]
      constructor
      · rintro ⟨h1, h2⟩; exact ⟨Or.inr h1, h2⟩
      · rintro ⟨h1 | h1, h2⟩
        · exact absurd (h1 ▸ hs) h2
        · exact ⟨h1, h2⟩
    · simp only [appendUniquesAux, if_neg hs, List.mem_cons, ih]
      constructor
      · rintro (h | ⟨h1, h2⟩)
        · exact ⟨Or.inl h, h ▸ hs⟩
        · exact ⟨Or.inr h1, fun hn => h2 (Or.inr hn)⟩
      · rintro ⟨h1 | h1, h2⟩
        · exact Or.inl h1
        · by_cases hns : n = s
          · exact Or.inl hns
          · exact Or.inr ⟨h1, fun hn => by
              rcases hn with h | h
              · exact hns h
              · exact h2 h⟩

theorem nodup_appendUniquesAux :
    ∀ (l seen : List ModName), (appendUniquesAux l seen).Nodup := by
  intro l
  induction l with
  | nil => intro seen; simp [appendUniquesAux]
  | cons s rest ih =>
    intro seen
    by_cases hs : s ∈ seen
    · simpa [appendUniquesAux, if_pos hs] using ih seen
    · simp only [appendUniquesAux, if_neg hs]
      refine List.nodup_cons.mpr ⟨fun hmem => ?_, ih (s :: seen)⟩
      exact ((mem_appendUniquesAux s rest (s :: seen)).mp hmem).2 (List.mem_cons_self s seen)

theorem mem_appendUniques (n : ModName) (ss ap : List ModName) :
    n ∈ appendUniques ss ap ↔ n ∈ ss ∨ n ∈ ap := by
  simp [appendUniques, mem_appendUniquesAux]

theorem nodup_appendUniques (ss ap : List ModName) : (appendUniques ss ap).Nodup :=
  nodup_appendUniquesAux _ _

theorem mem_removeUniquesAux (removes : List ModName) (n : ModName) :
    ∀ (l seen : List ModName),
      n ∈ removeUniquesAux removes l seen ↔ n ∈ l ∧ n ∉ removes ∧ n ∉ seen := by
  intro l
  induction l with
  | nil => intro seen; simp [removeUniquesAux]
  | cons s rest ih =>
    intro seen
    by_cases hk : s ∉ removes ∧ s ∉ seen
    · simp only [removeUniquesAux, if_pos hk, List.mem_cons, ih]
      constructor
      · rintro (h | ⟨h1, h2, h3⟩)
        · exact ⟨Or.inl h, h ▸ hk.1, h ▸ hk.2⟩
        · exact ⟨Or.inr h1, h2, fun hn => h3 (Or.inr hn)⟩
      · rintro ⟨h1 | h1, h2, h3⟩
        · exact Or.inl h1
        · by_cases hns : n = s
          · exact Or.inl hns
          · refine Or.inr ⟨h1, h2, fun hn => ?_⟩
            rcases hn with h | h
            · exact hns h
            · exact h3 h
    · simp only [removeUniquesAux, if_neg hk, ih, List.mem_cons]
      constructor
      · rintro ⟨h1, h2, h3⟩; exact ⟨Or.inr h1, h2, h3⟩
      · rintro ⟨h1 | h1, h2, h3⟩
        · subst h1
          rcases not_and_or.mp hk with h | h
          · exact absurd (not_not.mp h) h2
          · exact absurd (not_not.mp h) h3
        · exact ⟨h1, h2, h3⟩

theorem nodup_removeUniquesAux (removes : List ModName) :
    ∀ (l seen : List ModName), (removeUniquesAux removes l seen).Nodup := by
  intro l
  induction l with
  | nil => intro seen; simp [removeUniquesAux]
  | cons s rest ih =>
    intro seen
    by_cases hk : s ∉ removes ∧ s ∉ seen
    · simp only [removeUniquesAux, if_pos hk]
      refine List.nodup_cons.mpr ⟨fun hmem => ?_, ih (s :: seen)⟩
      exact ((mem_removeUniquesAux removes s rest (s :: seen)).mp hmem).2.2
        (List.mem_cons_self s seen)
    · simpa [removeUniquesAux, if_neg hk] using ih seen

theorem mem_removeUniques (n : ModName) (ss removes : List ModName) :
    n ∈ removeUniques ss removes ↔ n ∈ ss ∧ n ∉ removes := by
  simp [removeUniques, mem_removeUniquesAux]

theorem nodup_removeUniques (ss removes : List ModName) : (removeUniques ss removes).Nodup :=
  nodup_removeUniquesAux _ _ _

theorem getModuleSet_subset {fullNames : List ModName} {s : String} {ns : List ModName}
    (h : getModuleSet fullNames s = .ok ns) : ∀ n ∈ ns, n ∈ fullNames := by
  unfold getModuleSet at h
  split_ifs at h <;> injection h with h <;> subst h <;> intro n hn
  · exact absurd hn (List.not_mem_nil n)
  · exact ((mem_removeUniques n _ _).mp hn).1
  · exact ((mem_removeUniques n _ _).mp hn).1
  · rcases (mem_appendUniques n _ _).mp hn with h | h
    · exact h
    · exact absurd h (List.not_mem_nil n)
  · exact absurd hn (List.not_mem_nil n)

/-!
## Supporting lemmas: the sorted-unique name list -/

theorem mem_insertSorted (x a : ModName) :
    ∀ (l : List ModName), x ∈ insertSorted a l ↔ x = a ∨ x ∈ l := by
  intro l
  induction l with
  | nil =>
    rw [insertSorted]
    constructor
    · intro h; exact Or.inl (List.mem_singleton.mp h)
    · rintro (h | h)
      · exact h ▸ List.mem_singleton_self a
      · exact absurd h (List.not_mem_nil x)
  | cons b rest ih =>
    rw [insertSorted]
    by_cases h1 : a.data < b.data
    · rw [if_pos h1, List.mem_cons, List.mem_cons]
    · rw [if_neg h1]
      by_cases h2 : a = b
      · rw [if_pos h2]
        subst h2
        rw [List.mem_cons]
        tauto
      · rw [if_neg h2, List.mem_cons, ih, List.mem_cons]
        tauto

theorem pairwise_insertSorted (a : ModName) :
    ∀ (l : List ModName), l.Pairwise (· < ·) → (insertSorted a l).Pairwise (· < ·) := by
  intro l
  induction l with
  | nil =>
    intro _
    rw [insertSorted]
    exact List.pairwise_singleton _ a
  | cons b rest ih =>
    intro hp
    rcases List.pairwise_cons.mp hp with ⟨hb, hrest⟩
    rw [insertSorted]
    by_cases h1 : a.data < b.data
    · rw [if_pos h1]
      have h1' : a < b := String.lt_iff_toList_lt.mpr h1
      exact List.pairwise_cons.mpr
        ⟨fun x hx => by
          rcases List.mem_cons.mp hx with h | h
          · exact h ▸ h1'
          · exact lt_trans h1' (hb x h), hp⟩
    · rw [if_neg h1]
      by_cases h2 : a = b
      · rw [if_pos h2]; exact hp
      · have hba : b < a := by
          rcases lt_trichotomy a b with h | h | h
          · exact absurd (String.lt_iff_toList_lt.mp h) h1
          · exact absurd h h2
          · exact h
        rw [if_neg h2]
        refine List.pairwise_cons.mpr ⟨fun x hx => ?_, ih hrest⟩
        rcases (mem_insertSorted x a rest).mp hx with h | h
        · exact h ▸ hba
        · exact hb x h

theorem pairwise_sortDedup (l : List ModName) : (sortDedup l).Pairwise (· < ·) := by
  induction l with
  | nil => simp [sortDedup]
  | cons a rest ih => exact pairwise_insertSorted a _ ih

theorem mem_sortDedup (x : ModName) (l : List ModName) : x ∈ sortDedup l ↔ x ∈ l := by
  induction l with
  | nil => simp [sortDedup]
  | cons a rest ih =>
    simp only [sortDedup, List.foldr_cons, List.mem_cons]
    rw [show List.foldr insertSorted [] rest = sortDedup rest from rfl] at *
    rw [mem_insertSorted, ih]

theorem nodup_sortDedup (l : List ModName) : (sortDedup l).Nodup :=
  (pairwise_sortDedup l).imp ne_of_lt

/-!
## Supporting lemmas: map lookups and the built-in step -/

theorem lookupLoader_eq_none {m : LoaderMap} {k : ModName} :
    lookupLoader m k = none ↔ k ∉ m.map (·.1) := by
  induction m with
  | nil => simp [lookupLoader]
  | cons p rest ih =>
    obtain ⟨k', v⟩ := p
    rw [lookupLoader]
    by_cases hk : k' = k
    · subst hk
      simp [ih]
    · simp only [if_neg hk, List.map_cons, List.mem_cons, ih]
      constructor
      · intro h hmem
        rcases hmem with h1 | h1
        · exact hk h1.symm
        · exact h h1
      · intro h
        exact fun hmem => h (Or.inr hmem)

theorem lookupLoader_isSome {m : LoaderMap} {k : ModName} :
    (lookupLoader m k).isSome = true ↔ k ∈ m.map (·.1) := by
  cases ho : lookupLoader m k with
  | none => simp [lookupLoader_eq_none.mp ho]
  | some v =>
    simp only [Option.isSome_some, true_iff]
    by_contra hmem
    have hn := lookupLoader_eq_none.mpr hmem
    rw [ho] at hn
    exact Option.noConfusion hn

theorem makeBuiltinLoaderList_ok {fullNames names : List ModName} {ps : List Loader}
    (h : makeBuiltinLoaderList fullNames names = .ok ps) : ps = names.map Loader.builtin := by
  unfold makeBuiltinLoaderList at h
  split_ifs at h
  injection h with h
  exact h.symm

theorem makeBuiltinLoaderMap_ok {fullNames names : List ModName} {m : LoaderMap}
    (h : makeBuiltinLoaderMap fullNames names = .ok m) :
    m = names.map fun n => (n, Loader.builtin n) := by
  unfold makeBuiltinLoaderMap at h
  split_ifs at h
  injection h with h
  exact h.symm

/-- Full characterisation of a successful built-in step: the name list is
the ordered union of the named set and the recognised explicit names, and
both collections are that list materialised, with the `log` entry replaced
by the user-log loader when a user logger is set. -/
theorem extractStarletModules_ok {fullNames : List ModName} {userLog : Bool} {setName : String}
    {nameMods : List ModName} {sp : List Loader} {sl : LoaderMap} {sn : List ModName}
    (h : extractStarletModules fullNames userLog setName nameMods = .ok (sp, sl, sn)) :
    ∃ set0, getModuleSet fullNames setName = .ok set0 ∧
      sn = appendUniques set0 (intersectStrings fullNames nameMods) ∧
      sp = (sn.filter fun n => !isUserLogName userLog n).map Loader.builtin
           ++ (sn.filter (isUserLogName userLog)).map (fun _ => Loader.userlog) ∧
      sl = (sn.filter fun n => !isUserLogName userLog n).map (fun n => (n, Loader.builtin n))
           ++ (sn.filter (isUserLogName userLog)).map (fun n => (n, Loader.userlog)) := by
  unfold extractStarletModules at h
  split at h
  · exact absurd h (by simp)
  rename_i set0 hget
  refine ⟨set0, hget, ?_⟩
  split at h
  · rename_i hemp
    simp only [Except.ok.injEq, Prod.mk.injEq] at h
    obtain ⟨hsp, hsl, hsn⟩ := h
    subst hsp hsl hsn
    have hnil : appendUniques set0 (intersectStrings fullNames nameMods) = [] := by
      simpa using hemp
    refine ⟨rfl, ?_, ?_⟩ <;> rw [hnil] <;> rfl
  · rename_i hemp
    split at h
    · exact absurd h (by simp)
    rename_i pre hpre
    split at h
    · exact absurd h (by simp)
    rename_i lazy hlazy
    simp only [Except.ok.injEq, Prod.mk.injEq] at h
    obtain ⟨hsp, hsl, hsn⟩ := h
    subst hsp hsl hsn
    rw [makeBuiltinLoaderList_ok hpre, makeBuiltinLoaderMap_ok hlazy]
    exact ⟨rfl, rfl, rfl⟩

theorem map_fst_pairs (C : List ModName) (g : ModName → Loader) :
    (C.map fun n => (n, g n)).map (·.1) = C := by
  induction C with
  | nil => rfl
  | cons a rest ih => simp only [List.map_cons, ih]

theorem map_snd_pairs (C : List ModName) (g : ModName → Loader) :
    (C.map fun n => (n, g n)).map (·.2) = C.map g := by
  induction C with
  | nil => rfl
  | cons a rest ih => simp only [List.map_cons, ih]

/-- The built-in step's lazyload values, read off in order, are exactly its
preload list. -/
theorem extractStarletModules_values {fullNames : List ModName} {userLog : Bool}
    {setName : String} {nameMods : List ModName} {sp : List Loader} {sl : LoaderMap}
    {sn : List ModName}
    (h : extractStarletModules fullNames userLog setName nameMods = .ok (sp, sl, sn)) :
    sl.map (·.2) = sp := by
  obtain ⟨set0, _, _, hsp, hsl⟩ := extractStarletModules_ok h
  subst hsp hsl
  rw [List.map_append, map_snd_pairs, map_snd_pairs]

/-- The built-in step's lazyload keys are a permutation of its name list. -/
theorem extractStarletModules_keys_perm {fullNames : List ModName} {userLog : Bool}
    {setName : String} {nameMods : List ModName} {sp : List Loader} {sl : LoaderMap}
    {sn : List ModName}
    (h : extractStarletModules fullNames userLog setName nameMods = .ok (sp, sl, sn)) :
    (sl.map (·.1)).Perm sn := by
  obtain ⟨set0, _, _, hsp, hsl⟩ := extractStarletModules_ok h
  subst hsl
  rw [List.map_append, map_fst_pairs, map_fst_pairs]
  exact (List.perm_append_comm).trans (List.filter_append_perm (isUserLogName userLog) sn)

/-- Every loader produced by the built-in step is the engine's loader for a
built-in name, or the user-log replacement. -/
theorem extractStarletModules_loader_form {fullNames : List ModName} {userLog : Bool}
    {setName : String} {nameMods : List ModName} {sp : List Loader} {sl : LoaderMap}
    {sn : List ModName}
    (h : extractStarletModules fullNames userLog setName nameMods = .ok (sp, sl, sn)) :
    ∀ v ∈ sp, (∃ n, v = Loader.builtin n) ∨ v = Loader.userlog := by
  obtain ⟨set0, _, _, hsp, _⟩ := extractStarletModules_ok h
  subst hsp
  intro v hv
  rcases List.mem_append.mp hv with hm | hm
  · rcases List.mem_map.mp hm with ⟨n, _, hn⟩
    exact Or.inl ⟨n, hn.symm⟩
  · rcases List.mem_map.mp hm with ⟨n, _, hn⟩
    exact Or.inr hn.symm

/-- The built-in step's name list has no duplicates. -/
theorem extractStarletModules_nodup {fullNames : List ModName} {userLog : Bool}
    {setName : String} {nameMods : List ModName} {sp : List Loader} {sl : LoaderMap}
    {sn : List ModName}
    (h : extractStarletModules fullNames userLog setName nameMods = .ok (sp, sl, sn)) :
    sn.Nodup := by
  obtain ⟨set0, _, hsn, _, _⟩ := extractStarletModules_ok h
  exact hsn ▸ nodup_appendUniques _ _

/-- Every name of the built-in step is a recognised built-in module name. -/
theorem extractStarletModules_sub {fullNames : List ModName} {userLog : Bool}
    {setName : String} {nameMods : List ModName} {sp : List Loader} {sl : LoaderMap}
    {sn : List ModName}
    (h : extractStarletModules fullNames userLog setName nameMods = .ok (sp, sl, sn)) :
    ∀ n ∈ sn, n ∈ fullNames := by
  obtain ⟨set0, hget, hsn, _, _⟩ := extractStarletModules_ok h
  intro n hn
  rw [hsn] at hn
  rcases (mem_appendUniques n _ _).mp hn with hm | hm
  · exact getModuleSet_subset hget n hm
  · exact List.mem_filter.mp hm |>.1

/-!
## Supporting lemmas: the dynamic step -/

/-- With no resolver configured and at least one unresolved explicit name,
the dynamic step fails with the bare sentinel error. -/
theorem extractDynamicModules_none {nameMods existMods : List ModName}
    (h : ∃ n ∈ nameMods, n ∉ existMods) :
    extractDynamicModules none nameMods existMods = (.error "module not found", []) := by
  induction nameMods with
  | nil =>
    rcases h with ⟨n, hn, _⟩
    exact absurd hn (List.not_mem_nil n)
  | cons nm rest ih =>
    rw [extractDynamicModules]
    by_cases hmem : nm ∈ existMods
    · rw [if_pos hmem]
      apply ih
      rcases h with ⟨n, hn, hne⟩
      rcases List.mem_cons.mp hn with heq | hr
      · exact absurd (heq ▸ hmem) hne
      · exact ⟨n, hr, hne⟩
    · rw [if_neg hmem]

/-- On a successful dynamic step, the resolver's invocation trace counts one
invocation per occurrence of each unresolved name among the explicit names,
and none for names already resolved. -/
theorem extractDynamicModules_trace_count {f : ModName → Except String (Option Loader)}
    {nameMods existMods : List ModName} {res : List Loader × LoaderMap × List ModName}
    {tr : List ModName}
    (h : extractDynamicModules (some f) nameMods existMods = (.ok res, tr)) (name : ModName) :
    tr.count name = if name ∈ existMods then 0 else nameMods.count name := by
  induction nameMods generalizing res tr with
  | nil =>
    rw [extractDynamicModules] at h
    simp only [Prod.mk.injEq] at h
    obtain ⟨-, h2⟩ := h
    subst h2
    simp only [List.count_nil]
    split_ifs <;> rfl
  | cons nm rest ih =>
    rw [extractDynamicModules] at h
    by_cases hmem : nm ∈ existMods
    · rw [if_pos hmem] at h
      rw [ih h]
      by_cases hname : name ∈ existMods
      · rw [if_pos hname, if_pos hname]
      · have hne1 : ¬(name = nm) := fun heq => hname (heq ▸ hmem)
        have hne2 : ¬(nm = name) := fun heq => hname (heq ▸ hmem)
        simp [List.count_cons, hname, hne1, hne2]
    · rw [if_neg hmem] at h
      cases hf : f nm with
      | error e => rw [hf] at h; simp at h
      | ok olo =>
        cases olo with
        | none => rw [hf] at h; simp at h
        | some l =>
          rw [hf] at h
          cases hrec : extractDynamicModules (some f) rest existMods with
          | mk r t =>
            rw [hrec] at h
            cases r with
            | error e => simp at h
            | ok triple =>
              obtain ⟨dp, dl, dn⟩ := triple
              simp only [Prod.mk.injEq] at h
              obtain ⟨-, h2⟩ := h
              subst h2
              rw [List.count_cons, ih hrec]
              by_cases hname : name ∈ existMods
              · have hne1 : ¬(name = nm) := fun heq => hmem (heq ▸ hname)
                have hne2 : ¬(nm = name) := fun heq => hmem (heq.symm ▸ hname)
                simp [hname, hne1, hne2]
              · simp only [if_neg hname, List.count_cons]

/-- Every key of the dynamic step's map is an explicit name that was not
already resolved. -/
theorem extractDynamicModules_keys {f : ModName → Except String (Option Loader)}
    {nameMods existMods : List ModName} {dp : List Loader} {dl : LoaderMap}
    {dn : List ModName} {tr : List ModName}
    (h : extractDynamicModules (some f) nameMods existMods = (.ok (dp, dl, dn), tr)) :
    ∀ k ∈ dl.map (·.1), k ∈ nameMods ∧ k ∉ existMods := by
  induction nameMods generalizing dp dl dn tr with
  | nil =>
    rw [extractDynamicModules] at h
    simp only [Prod.mk.injEq, Except.ok.injEq] at h
    obtain ⟨⟨-, h2, -⟩, -⟩ := h
    subst h2
    intro k hk
    exact absurd hk (List.not_mem_nil k)
  | cons nm rest ih =>
    rw [extractDynamicModules] at h
    by_cases hmem : nm ∈ existMods
    · rw [if_pos hmem] at h
      intro k hk
      obtain ⟨h1, h2⟩ := ih h k hk
      exact ⟨List.mem_cons_of_mem _ h1, h2⟩
    · rw [if_neg hmem] at h
      cases hf : f nm with
      | error e => rw [hf] at h; simp at h
      | ok olo =>
        cases olo with
        | none => rw [hf] at h; simp at h
        | some l =>
          rw [hf] at h
          cases hrec : extractDynamicModules (some f) rest existMods with
          | mk r t =>
            rw [hrec] at h
            cases r with
            | error e => simp at h
            | ok triple =>
              obtain ⟨dp', dl', dn'⟩ := triple
              simp only [Prod.mk.injEq, Except.ok.injEq] at h
              obtain ⟨⟨-, h2, -⟩, -⟩ := h
              subst h2
              intro k hk
              by_cases hlk : (lookupLoader dl' nm).isSome
              · rw [if_pos hlk] at hk
                obtain ⟨h1, h2⟩ := ih hrec k hk
                exact ⟨List.mem_cons_of_mem _ h1, h2⟩
              · rw [if_neg hlk] at hk
                rcases List.mem_map.mp hk with ⟨p, hp, hpk⟩
                rcases List.mem_cons.mp hp with heq | hp'
                · subst heq
                  exact hpk ▸ ⟨List.mem_cons_self nm rest, hmem⟩
                · obtain ⟨h1, h2⟩ := ih hrec k (hpk ▸ List.mem_map_of_mem (·.1) hp')
                  exact ⟨List.mem_cons_of_mem _ h1, h2⟩

/-- Every entry of the dynamic step's map was produced by the resolver. -/
theorem extractDynamicModules_entries {f : ModName → Except String (Option Loader)}
    {nameMods existMods : List ModName} {dp : List Loader} {dl : LoaderMap}
    {dn : List ModName} {tr : List ModName}
    (h : extractDynamicModules (some f) nameMods existMods = (.ok (dp, dl, dn), tr)) :
    ∀ p ∈ dl, f p.1 = .ok (some p.2) := by
  induction nameMods generalizing dp dl dn tr with
  | nil =>
    rw [extractDynamicModules] at h
    simp only [Prod.mk.injEq, Except.ok.injEq] at h
    obtain ⟨⟨-, h2, -⟩, -⟩ := h
    subst h2
    intro p hp
    exact absurd hp (List.not_mem_nil p)
  | cons nm rest ih =>
    rw [extractDynamicModules] at h
    by_cases hmem : nm ∈ existMods
    · rw [if_pos hmem] at h
      exact ih h
    · rw [if_neg hmem] at h
      cases hf : f nm with
      | error e => rw [hf] at h; simp at h
      | ok olo =>
        cases olo with
        | none => rw [hf] at h; simp at h
        | some l =>
          rw [hf] at h
          cases hrec : extractDynamicModules (some f) rest existMods with
          | mk r t =>
            rw [hrec] at h
            cases r with
            | error e => simp at h
            | ok triple =>
              obtain ⟨dp', dl', dn'⟩ := triple
              simp only [Prod.mk.injEq, Except.ok.injEq] at h
              obtain ⟨⟨-, h2, -⟩, -⟩ := h
              subst h2
              intro p hp
              by_cases hlk : (lookupLoader dl' nm).isSome
              · rw [if_pos hlk] at hp
                exact ih hrec p hp
              · rw [if_neg hlk] at hp
                rcases List.mem_cons.mp hp with heq | hp'
                · subst heq
                  exact hf
                · exact ih hrec p hp'

/-- Every loader of the dynamic step's preload part was produced by the
resolver for some explicit name. -/
theorem extractDynamicModules_pre_values {f : ModName → Except String (Option Loader)}
    {nameMods existMods : List ModName} {dp : List Loader} {dl : LoaderMap}
    {dn : List ModName} {tr : List ModName}
    (h : extractDynamicModules (some f) nameMods existMods = (.ok (dp, dl, dn), tr)) :
    ∀ v ∈ dp, ∃ n, n ∈ nameMods ∧ f n = .ok (some v) := by
  induction nameMods generalizing dp dl dn tr with
  | nil =>
    rw [extractDynamicModules] at h
    simp only [Prod.mk.injEq, Except.ok.injEq] at h
    obtain ⟨⟨h1, -, -⟩, -⟩ := h
    subst h1
    intro v hv
    exact absurd hv (List.not_mem_nil v)
  | cons nm rest ih =>
    rw [extractDynamicModules] at h
    by_cases hmem : nm ∈ existMods
    · rw [if_pos hmem] at h
      intro v hv
      obtain ⟨n, h1, h2⟩ := ih h v hv
      exact ⟨n, List.mem_cons_of_mem _ h1, h2⟩
    · rw [if_neg hmem] at h
      cases hf : f nm with
      | error e => rw [hf] at h; simp at h
      | ok olo =>
        cases olo with
        | none => rw [hf] at h; simp at h
        | some l =>
          rw [hf] at h
          cases hrec : extractDynamicModules (some f) rest existMods with
          | mk r t =>
            rw [hrec] at h
            cases r with
            | error e => simp at h
            | ok triple =>
              obtain ⟨dp', dl', dn'⟩ := triple
              simp only [Prod.mk.injEq, Except.ok.injEq] at h
              obtain ⟨⟨h1, -, -⟩, -⟩ := h
              subst h1
              intro v hv
              rcases List.mem_cons.mp hv with heq | hv'
              · exact ⟨nm, List.mem_cons_self nm rest, heq ▸ hf⟩
              · obtain ⟨n, hn1, hn2⟩ := ih hrec v hv'
                exact ⟨n, List.mem_cons_of_mem _ hn1, hn2⟩

/-- The dynamic step's name list and its map have the same names (the name
list may repeat a name; the map holds it once). -/
theorem extractDynamicModules_names_mem {f : ModName → Except String (Option Loader)}
    {nameMods existMods : List ModName} {dp : List Loader} {dl : LoaderMap}
    {dn : List ModName} {tr : List ModName}
    (h : extractDynamicModules (some f) nameMods existMods = (.ok (dp, dl, dn), tr)) :
    ∀ n, n ∈ dn ↔ n ∈ dl.map (·.1) := by
  induction nameMods generalizing dp dl dn tr with
  | nil =>
    rw [extractDynamicModules] at h
    simp only [Prod.mk.injEq, Except.ok.injEq] at h
    obtain ⟨⟨-, h2, h3⟩, -⟩ := h
    subst h2 h3
    intro n
    simp
  | cons nm rest ih =>
    rw [extractDynamicModules] at h
    by_cases hmem : nm ∈ existMods
    · rw [if_pos hmem] at h
      exact ih h
    · rw [if_neg hmem] at h
      cases hf : f nm with
      | error e => rw [hf] at h; simp at h
      | ok olo =>
        cases olo with
        | none => rw [hf] at h; simp at h
        | some l =>
          rw [hf] at h
          cases hrec : extractDynamicModules (some f) rest existMods with
          | mk r t =>
            rw [hrec] at h
            cases r with
            | error e => simp at h
            | ok triple =>
              obtain ⟨dp', dl', dn'⟩ := triple
              simp only [Prod.mk.injEq, Except.ok.injEq] at h
              obtain ⟨⟨-, h2, h3⟩, -⟩ := h
              subst h2 h3
              intro n
              by_cases hlk : (lookupLoader dl' nm).isSome
              · rw [if_pos hlk]
                have hnm : nm ∈ dl'.map (·.1) := lookupLoader_isSome.mp hlk
                rw [List.mem_cons, ih hrec]
                constructor
                · rintro (heq | hmem')
                  · exact heq ▸ hnm
                  · exact hmem'
                · exact Or.inr
              · rw [if_neg hlk]
                rw [List.mem_cons, ih hrec, List.map_cons, List.mem_cons]

/-- When no unresolved explicit name is duplicated, the dynamic step's
preload part, map and name list line up entry for entry. -/
theorem extractDynamicModules_aligned {f : ModName → Except String (Option Loader)}
    {nameMods existMods : List ModName} {dp : List Loader} {dl : LoaderMap}
    {dn : List ModName} {tr : List ModName}
    (h : extractDynamicModules (some f) nameMods existMods = (.ok (dp, dl, dn), tr))
    (hcount : ∀ n, n ∉ existMods → nameMods.count n ≤ 1) :
    dp = dl.map (·.2) ∧ dn = dl.map (·.1) ∧ (dl.map (·.1)).Nodup := by
  induction nameMods generalizing dp dl dn tr with
  | nil =>
    rw [extractDynamicModules] at h
    simp only [Prod.mk.injEq, Except.ok.injEq] at h
    obtain ⟨⟨h1, h2, h3⟩, -⟩ := h
    subst h1 h2 h3
    exact ⟨rfl, rfl, List.nodup_nil⟩
  | cons nm rest ih =>
    rw [extractDynamicModules] at h
    by_cases hmem : nm ∈ existMods
    · rw [if_pos hmem] at h
      refine ih h fun n hn => ?_
      calc rest.count n ≤ (nm :: rest).count n := by
            rw [List.count_cons]; omega
        _ ≤ 1 := hcount n hn
    · rw [if_neg hmem] at h
      cases hf : f nm with
      | error e => rw [hf] at h; simp at h
      | ok olo =>
        cases olo with
        | none => rw [hf] at h; simp at h
        | some l =>
          rw [hf] at h
          cases hrec : extractDynamicModules (some f) rest existMods with
          | mk r t =>
            rw [hrec] at h
            cases r with
            | error e => simp at h
            | ok triple =>
              obtain ⟨dp', dl', dn'⟩ := triple
              simp only [Prod.mk.injEq, Except.ok.injEq] at h
              obtain ⟨⟨h1, h2, h3⟩, -⟩ := h
              subst h1 h2 h3
              have hnotrest : nm ∉ rest := by
                have hc := hcount nm hmem
                rw [List.count_cons_self] at hc
                have : rest.count nm = 0 := by omega
                exact List.count_eq_zero.mp this
              have hnotkeys : nm ∉ dl'.map (·.1) := fun hk =>
                hnotrest (extractDynamicModules_keys hrec nm hk).1
              have hlk : ¬(lookupLoader dl' nm).isSome := fun hs =>
                hnotkeys (lookupLoader_isSome.mp hs)
              rw [if_neg hlk]
              have hcount' : ∀ n, n ∉ existMods → rest.count n ≤ 1 := fun n hn => by
                calc rest.count n ≤ (nm :: rest).count n := by
                      rw [List.count_cons]; omega
                  _ ≤ 1 := hcount n hn
              obtain ⟨ih1, ih2, ih3⟩ := ih hrec hcount'
              subst ih1 ih2
              exact ⟨rfl, rfl, List.nodup_cons.mpr ⟨hnotkeys, ih3⟩⟩

/-- Destructuring a successful full resolution into its three steps. -/
theorem extractModLoaders_ok {fullNames : List ModName} {b : Box} {pre : List Loader}
    {lazy : LoaderMap} {names : List ModName} {tr : List ModName}
    (h : extractModLoaders fullNames b = (.ok (pre, lazy, names), tr)) :
    ∃ sp sl sn dp dl dn,
      extractStarletModules fullNames b.userLog b.modSet b.namedMods = .ok (sp, sl, sn) ∧
      extractDynamicModules b.dynMods b.namedMods
          (sn ++ (b.loadMods.filter fun p => p.1 ∉ sn).map (·.1)) = (.ok (dp, dl, dn), tr) ∧
      pre = sp ++ (b.loadMods.filter fun p => p.1 ∉ sn).map (·.2) ++ dp ∧
      lazy = sl ++ b.loadMods.filter (fun p => p.1 ∉ sn) ++ dl ∧
      names = sortDedup (sn ++ (b.loadMods.filter fun p => p.1 ∉ sn).map (·.1) ++ dn) := by
  unfold extractModLoaders at h
  split at h
  · simp at h
  rename_i star sp sl sn hstar
  split at h
  rename_i x cp cl cn heq
  rw [extractLocalModules] at heq
  simp only [Prod.mk.injEq] at heq
  obtain ⟨hcp, hcl, hcn⟩ := heq
  subst hcp hcl hcn
  split at h
  · rw [Prod.mk.injEq] at h
    exact absurd h.1 (by simp)
  rename_i y dp dl dn tr2 hdyn
  rw [Prod.mk.injEq] at h
  obtain ⟨h1, h2⟩ := h
  simp only [Except.ok.injEq, Prod.mk.injEq] at h1
  obtain ⟨hpre, hlazy, hnames⟩ := h1
  subst h2
  refine ⟨sp, sl, sn, dp, dl, dn, hstar, hdyn, ?_, ?_, ?_⟩
  · rw [← hpre, List.append_assoc]
  · rw [← hlazy, List.append_assoc]
  · rw [← hnames, List.append_assoc]

/-- A successful dynamic step with no resolver configured produced nothing
(every explicit name was already resolved). -/
theorem extractDynamicModules_none_ok {nameMods existMods : List ModName} {dp : List Loader}
    {dl : LoaderMap} {dn : List ModName} {tr : List ModName}
    (h : extractDynamicModules none nameMods existMods = (.ok (dp, dl, dn), tr)) :
    dp = [] ∧ dl = [] ∧ dn = [] ∧ tr = [] := by
  induction nameMods with
  | nil =>
    rw [extractDynamicModules] at h
    simp only [Prod.mk.injEq, Except.ok.injEq] at h
    obtain ⟨⟨h1, h2, h3⟩, h4⟩ := h
    exact ⟨h1.symm, h2.symm, h3.symm, h4.symm⟩
  | cons nm rest ih =>
    rw [extractDynamicModules] at h
    by_cases hmem : nm ∈ existMods
    · rw [if_pos hmem] at h
      exact ih h
    · rw [if_neg hmem] at h
      simp at h

/-- Lookup in a concatenation of maps: the left map wins. -/
theorem lookupLoader_append (m₁ m₂ : LoaderMap) (k : ModName) :
    lookupLoader (m₁ ++ m₂) k =
      match lookupLoader m₁ k with
      | some v => some v
      | none => lookupLoader m₂ k := by
  induction m₁ with
  | nil => rw [List.nil_append, lookupLoader]
  | cons p rest ih =>
    obtain ⟨k', v'⟩ := p
    rw [List.cons_append, lookupLoader, lookupLoader]
    by_cases hk : k' = k
    · rw [if_pos hk, if_pos hk]
    · rw [if_neg hk, if_neg hk, ih]

/-- Reading back the reference just written. -/
theorem heapGet_heapSet_self (h : Heap) (r : Nat) (m : Extras) :
    heapGet (heapSet h r m) r = m := by
  induction h with
  | nil => simp [heapSet, heapGet]
  | cons p rest ih =>
    obtain ⟨r', m'⟩ := p
    rw [heapSet]
    by_cases hr : r' = r
    · rw [if_pos hr, heapGet, if_pos rfl]
    · rw [if_neg hr, heapGet, if_neg hr, ih]

/-!
## Claim theorems -/

/-- C8: the named-set lookup returns, without error, the empty name list for
the empty-string identifier and for "none", the derived subset lists for
"safe", "network" and "full" (the full list minus the named removals,
duplicate-free and order-preserving), and fails with an "unknown module set"
error for every other identifier. -/
theorem c8_named_set_lookup (fullNames : List ModName) :
    getModuleSet fullNames "" = .ok [] ∧
    getModuleSet fullNames "none" = .ok [] ∧
    getModuleSet fullNames "safe"
      = .ok (removeUniques fullNames ["file", "path", "runtime", "http", "log"]) ∧
    (∀ n, n ∈ removeUniques fullNames ["file", "path", "runtime", "http", "log"] ↔
      n ∈ fullNames ∧ n ∉ ["file", "path", "runtime", "http", "log"]) ∧
    getModuleSet fullNames "network"
      = .ok (removeUniques fullNames ["file", "path", "runtime"]) ∧
    (∀ n, n ∈ removeUniques fullNames ["file", "path", "runtime"] ↔
      n ∈ fullNames ∧ n ∉ ["file", "path", "runtime"]) ∧
    getModuleSet fullNames "full" = .ok (appendUniques fullNames []) ∧
    (∀ n, n ∈ appendUniques fullNames [] ↔ n ∈ fullNames) ∧
    (removeUniques fullNames ["file", "path", "runtime", "http", "log"]).Nodup ∧
    (removeUniques fullNames ["file", "path", "runtime"]).Nodup ∧
    (appendUniques fullNames []).Nodup ∧
    (∀ s, s ≠ "" → s ≠ "none" → s ≠ "safe" → s ≠ "network" → s ≠ "full" →
      getModuleSet fullNames s = .error ("unknown module set: " ++ s)) := by
  refine ⟨rfl, rfl, rfl, fun n => mem_removeUniques n _ _, rfl,
    fun n => mem_removeUniques n _ _, rfl, fun n => ?_, nodup_removeUniques _ _,
    nodup_removeUniques _ _, nodup_appendUniques _ _, fun s h1 h2 h3 h4 h5 => ?_⟩
  · rw [mem_appendUniques]
    simp
  · unfold getModuleSet
    rw [if_neg h2, if_neg h3, if_neg h4, if_neg h5, if_neg h1]

/-- Witness for C8 at a concrete built-in list and an unknown identifier. -/
theorem c8_named_set_lookup_witness :
    getModuleSet ["base64", "json"] "bogus" = .error ("unknown module set: " ++ "bogus") :=
  (c8_named_set_lookup ["base64", "json"]).2.2.2.2.2.2.2.2.2.2.2 "bogus"
    (by decide) (by decide) (by decide) (by decide) (by decide)

/-- C3: a successful built-in step produces exactly the selected named set
unioned, first-seen order with duplicates removed, with the explicitly added
names recognised as built-ins; an explicit name not recognised as a built-in
name never comes out of the built-in step. -/
theorem c3_builtin_step_names {fullNames : List ModName} {userLog : Bool} {setName : String}
    {nameMods set0 : List ModName} {sp : List Loader} {sl : LoaderMap} {sn : List ModName}
    (hset : getModuleSet fullNames setName = .ok set0)
    (h : extractStarletModules fullNames userLog setName nameMods = .ok (sp, sl, sn)) :
    sn = appendUniques set0 (intersectStrings fullNames nameMods) ∧
    (∀ n, n ∈ sn ↔ n ∈ set0 ∨ (n ∈ fullNames ∧ n ∈ nameMods)) ∧
    sn.Nodup ∧
    (∀ n, n ∈ nameMods → n ∉ fullNames → n ∉ sn) := by
  obtain ⟨set0', hget, hsn, -, -⟩ := extractStarletModules_ok h
  rw [hget] at hset
  injection hset with hset
  subst hset
  have hmem : ∀ n, n ∈ sn ↔ n ∈ set0' ∨ (n ∈ fullNames ∧ n ∈ nameMods) := by
    intro n
    rw [hsn, mem_appendUniques]
    constructor
    · rintro (hm | hm)
      · exact Or.inl hm
      · obtain ⟨h1, h2⟩ := List.mem_filter.mp hm
        exact Or.inr ⟨h1, by simpa using h2⟩
    · rintro (hm | ⟨h1, h2⟩)
      · exact Or.inl hm
      · exact Or.inr (List.mem_filter.mpr ⟨h1, by simpa using h2⟩)
  refine ⟨hsn, hmem, hsn ▸ nodup_appendUniques _ _, fun n hn hnf hmemn => ?_⟩
  rcases (hmem n).mp hmemn with hm | hm
  · exact hnf (getModuleSet_subset hget n hm)
  · exact hnf hm.1

/-- Witness for C3: explicit names `base64` (recognised) and `zoo` (not
recognised) against the empty named set. -/
theorem c3_builtin_step_names_witness :
    (["base64"] : List ModName)
        = appendUniques [] (intersectStrings ["base64", "json"] ["base64", "zoo"]) ∧
    (∀ n, n ∈ (["base64"] : List ModName) ↔
      n ∈ ([] : List ModName) ∨ (n ∈ ["base64", "json"] ∧ n ∈ ["base64", "zoo"])) ∧
    (["base64"] : List ModName).Nodup ∧
    (∀ n, n ∈ (["base64", "zoo"] : List ModName) → n ∉ (["base64", "json"] : List ModName) →
      n ∉ (["base64"] : List ModName)) :=
  @c3_builtin_step_names ["base64", "json"] false "" ["base64", "zoo"] []
    [Loader.builtin "base64"] [("base64", Loader.builtin "base64")] ["base64"]
    rfl rfl

/-- `prepareEnv` on a successfully resolving session, written as a plain
conditional. -/
theorem prepareEnv_eq {fullNames : List ModName} {b : Box} {pre : List Loader}
    {lazy : LoaderMap} {names tr : List ModName}
    (hres : extractModLoaders fullNames b = (.ok (pre, lazy, names), tr)) :
    prepareEnv fullNames b =
      (if b.scriptMods ≠ [] ∧ b.modFS = false
       then .ok { b with modNames := names ++ b.scriptMods.map (·.1), modFS := true }
       else .ok { b with modNames := names }) := by
  unfold prepareEnv
  rw [hres]

/-- C4 counterexample: after a successful environment preparation, the name
list exposed as `__modules__` is `["random", "abc.star"]`, which is not
lexicographically sorted: registered script-module file names are appended
after the sorted resolution output. -/
theorem c4_counterexample :
    prepareEnv ["random"] c4Box
      = .ok { c4Box with modNames := ["random", "abc.star"], modFS := true } ∧
    ¬ (["random", "abc.star"] : List ModName).Pairwise (· < ·) := by
  constructor
  · rfl
  · intro hp
    have hlt : ("random" : ModName) < "abc.star" :=
      (List.pairwise_cons.mp hp).1 "abc.star" (List.mem_singleton_self _)
    exact absurd (String.lt_iff_toList_lt.mp hlt) (by decide)

/-- C4 as amended: the name list produced by the module-resolution step is
strictly sorted (hence duplicate-free) whatever the insertion order and
duplicate registrations; the `__modules__` list recorded by `prepareEnv`
is that sorted list with the registered script-module file names appended
after it, and equals it whenever no script modules are registered or a
module filesystem is already set. -/
theorem c4_resolved_names_sorted {fullNames : List ModName} {b b' : Box}
    {pre : List Loader} {lazy : LoaderMap} {names tr : List ModName}
    (hres : extractModLoaders fullNames b = (.ok (pre, lazy, names), tr))
    (h : prepareEnv fullNames b = .ok b') :
    names.Pairwise (· < ·) ∧
    b'.modNames = (if b.scriptMods ≠ [] ∧ b.modFS = false
      then names ++ b.scriptMods.map (·.1) else names) := by
  obtain ⟨sp, sl, sn, dp, dl, dn, -, -, -, -, hnames⟩ := extractModLoaders_ok hres
  refine ⟨hnames ▸ pairwise_sortDedup _, ?_⟩
  rw [prepareEnv_eq hres] at h
  by_cases hcond : b.scriptMods ≠ [] ∧ b.modFS = false
  · rw [if_pos hcond] at h
    rw [if_pos hcond]
    injection h with h
    rw [← h]
  · rw [if_neg hcond] at h
    rw [if_neg hcond]
    injection h with h
    rw [← h]

/-- Witness for the amended C4 on a session with no script modules. -/
theorem c4_resolved_names_sorted_witness :
    (["random"] : List ModName).Pairwise (· < ·) ∧
    (Box.modNames { modSet := "", namedMods := ["random"], modNames := ["random"] })
      = (if ([] : List (String × String)) ≠ [] ∧ false = false
          then ["random"] ++ ([] : List (String × String)).map (·.1) else ["random"]) :=
  @c4_resolved_names_sorted ["random"] { modSet := "", namedMods := ["random"] }
    { modSet := "", namedMods := ["random"], modNames := ["random"] }
    [Loader.builtin "random"] [("random", Loader.builtin "random")] ["random"] []
    rfl rfl

/-- C7: when module resolution fails, the execution call returns that error
with no script evaluation attempted, the session keeps its pre-execution
state unchanged, and every configuration mutator still succeeds on it and
records the change (whatever logger is installed), so the configuration can
be corrected and the run retried. -/
theorem c7_resolution_failure_recoverable {fullNames : List ModName} {b : Box} {e : String}
    (hexec : b.hasExec = false)
    (hres : (extractModLoaders fullNames b).1 = .error e) :
    Box.run fullNames b = { err := some e, box := b, evaluated := false } ∧
    (∀ dev tag, setStructTag dev (Box.run fullNames b).box tag
      = some { b with structTag := tag }) ∧
    (∀ dev ms, setModuleSet dev (Box.run fullNames b).box ms
      = some { b with modSet := ms }) ∧
    (∀ dev mods, addNamedModules dev (Box.run fullNames b).box mods
      = some { b with namedMods := b.namedMods ++ mods }) ∧
    (∀ dev mn l, addModuleLoader dev (Box.run fullNames b).box mn l
      = some { b with loadMods := writeLoader b.loadMods mn l }) ∧
    (∀ dev f, setDynamicModuleLoader dev (Box.run fullNames b).box f
      = some { b with dynMods := f }) := by
  have hgate : ∀ dev : Bool, ¬(b.hasExec = true ∧ dev = true) := by
    intro dev ⟨h1, _⟩
    rw [hexec] at h1
    exact Bool.noConfusion h1
  have hrun : Box.run fullNames b = { err := some e, box := b, evaluated := false } := by
    unfold Box.run
    rw [if_neg (by rw [hexec]; exact Bool.false_ne_true)]
    unfold prepareEnv
    rw [hres]
  refine ⟨hrun, ?_, ?_, ?_, ?_, ?_⟩ <;> intro dev
  · intro tag
    rw [hrun]
    unfold setStructTag
    rw [if_neg (hgate dev)]
  · intro ms
    rw [hrun]
    unfold setModuleSet
    rw [if_neg (hgate dev)]
  · intro mods
    rw [hrun]
    unfold addNamedModules
    rw [if_neg (hgate dev)]
  · intro mn l
    rw [hrun]
    unfold addModuleLoader
    rw [if_neg (hgate dev)]
  · intro f
    rw [hrun]
    unfold setDynamicModuleLoader
    rw [if_neg (hgate dev)]

/-- Witness for C7: an unknown named-set identifier makes the run call fail
with that error, leave the session untouched, and keep mutators usable. -/
theorem c7_resolution_failure_recoverable_witness :
    Box.run [] { modSet := "bogus" }
      = { err := some ("unknown module set: " ++ "bogus"), box := { modSet := "bogus" },
          evaluated := false } ∧
    setStructTag false (Box.run [] { modSet := "bogus" }).box "json"
      = some { ({ modSet := "bogus" } : Box) with structTag := "json" } :=
  ⟨(@c7_resolution_failure_recoverable [] { modSet := "bogus" }
      ("unknown module set: " ++ "bogus") rfl rfl).1,
   (@c7_resolution_failure_recoverable [] { modSet := "bogus" }
      ("unknown module set: " ++ "bogus") rfl rfl).2.1 false "json"⟩

/-- C6 counterexample: under the default no-op logger installed by the
package `init` (no development logger), `SetStructTag` called after a
successful execution does not fail at all — it returns normally and records
the new tag.  The claim requires a fatal usage error. -/
theorem c6_counterexample :
    setStructTag false c6BoxAfter "json" ≠ none ∧
    setStructTag false c6BoxAfter "json" = some { c6BoxAfter with structTag := "json" } := by
  constructor
  · intro h
    rw [show setStructTag false c6BoxAfter "json"
        = some { c6BoxAfter with structTag := "json" } from rfl] at h
    exact Option.noConfusion h
  · rfl

/-- C6 as amended: a configuration mutator called after the first execution
is fatal (panic, mutation not recorded) exactly when a development-mode
logger has been installed through `SetLog`; under the default no-op logger
it returns normally and still records the change.  Before the first
execution every mutator succeeds and records the change.  No mutator ever
returns a recoverable error value (the model has no error outcome at all). -/
theorem c6_freeze_semantics (dev : Bool) (b : Box) (tag : String) (fnSet hfs : Bool)
    (ms : String) (f : Option (ModName → Except String (Option Loader)))
    (key : String) (v : Nat) (mods : List ModName) (mn : ModName) (l : Loader)
    (memName : String) (mem : Nat) :
    (b.hasExec = true → dev = true →
      setStructTag dev b tag = none ∧ setPrintFunc dev b fnSet = none ∧
      setFS dev b hfs = none ∧ setModuleSet dev b ms = none ∧
      setDynamicModuleLoader dev b f = none ∧ addKeyValue dev b key v = none ∧
      addNamedModules dev b mods = none ∧ addModuleLoader dev b mn l = none ∧
      attachMemory dev b memName mem = none) ∧
    (b.hasExec = false →
      setStructTag dev b tag = some { b with structTag := tag } ∧
      setPrintFunc dev b fnSet = some { b with printFunc := fnSet } ∧
      setFS dev b hfs = some { b with modFS := hfs } ∧
      setModuleSet dev b ms = some { b with modSet := ms } ∧
      setDynamicModuleLoader dev b f = some { b with dynMods := f } ∧
      addKeyValue dev b key v = some { b with globals := writeAssoc b.globals key v } ∧
      addNamedModules dev b mods = some { b with namedMods := b.namedMods ++ mods } ∧
      addModuleLoader dev b mn l = some { b with loadMods := writeLoader b.loadMods mn l } ∧
      attachMemory dev b memName mem
        = some { b with globals := writeAssoc b.globals memName mem }) ∧
    (dev = false →
      setStructTag dev b tag = some { b with structTag := tag } ∧
      setPrintFunc dev b fnSet = some { b with printFunc := fnSet } ∧
      setFS dev b hfs = some { b with modFS := hfs } ∧
      setModuleSet dev b ms = some { b with modSet := ms } ∧
      setDynamicModuleLoader dev b f = some { b with dynMods := f } ∧
      addKeyValue dev b key v = some { b with globals := writeAssoc b.globals key v } ∧
      addNamedModules dev b mods = some { b with namedMods := b.namedMods ++ mods } ∧
      addModuleLoader dev b mn l = some { b with loadMods := writeLoader b.loadMods mn l } ∧
      attachMemory dev b memName mem
        = some { b with globals := writeAssoc b.globals memName mem }) := by
  refine ⟨fun h1 h2 => ?_, fun h1 => ?_, fun h1 => ?_⟩
  · have hgate : (b.hasExec = true ∧ dev = true) := ⟨h1, h2⟩
    unfold setStructTag setPrintFunc setFS setModuleSet setDynamicModuleLoader
      addKeyValue addNamedModules addModuleLoader attachMemory
    rw [if_pos hgate, if_pos hgate, if_pos hgate, if_pos hgate, if_pos hgate,
      if_pos hgate, if_pos hgate, if_pos hgate, if_pos hgate]
    exact ⟨rfl, rfl, rfl, rfl, rfl, rfl, rfl, rfl, rfl⟩
  · have hgate : ¬(b.hasExec = true ∧ dev = true) := fun ⟨hh, _⟩ => by
      rw [h1] at hh; exact Bool.noConfusion hh
    unfold setStructTag setPrintFunc setFS setModuleSet setDynamicModuleLoader
      addKeyValue addNamedModules addModuleLoader attachMemory
    rw [if_neg hgate, if_neg hgate, if_neg hgate, if_neg hgate, if_neg hgate,
      if_neg hgate, if_neg hgate, if_neg hgate, if_neg hgate]
    exact ⟨rfl, rfl, rfl, rfl, rfl, rfl, rfl, rfl, rfl⟩
  · have hgate : ¬(b.hasExec = true ∧ dev = true) := fun ⟨_, hd⟩ => by
      rw [h1] at hd; exact Bool.noConfusion hd
    unfold setStructTag setPrintFunc setFS setModuleSet setDynamicModuleLoader
      addKeyValue addNamedModules addModuleLoader attachMemory
    rw [if_neg hgate, if_neg hgate, if_neg hgate, if_neg hgate, if_neg hgate,
      if_neg hgate, if_neg hgate, if_neg hgate, if_neg hgate]
    exact ⟨rfl, rfl, rfl, rfl, rfl, rfl, rfl, rfl, rfl⟩

/-- Witness for the amended C6: with a development logger, the same
post-execution `SetStructTag` call is fatal; before execution (default
session) it records the tag. -/
theorem c6_freeze_semantics_witness :
    setStructTag true { hasExec := true, execTimes := 1 } "json" = none ∧
    setStructTag false ({} : Box) "json" = some { ({} : Box) with structTag := "json" } :=
  ⟨(c6_freeze_semantics true { hasExec := true, execTimes := 1 } "json" false false
      "" none "" 0 [] "" (Loader.custom 0) "" 0 |>.1 rfl rfl).1,
   (c6_freeze_semantics false ({} : Box) "json" false false
      "" none "" 0 [] "" (Loader.custom 0) "" 0 |>.2.1 rfl).1⟩

/-- C10 counterexample: after the second `KeyValue` call, the extras mapping
observable through the first configuration object has gained the new pair —
the shallow struct copy shares the underlying map, so `KeyValue` on a
configuration with a non-nil extras map mutates the receiver's mapping. -/
theorem c10_counterexample :
    observeExtras c10Step1.1 c10Step1.2 = some [("a", 1)] ∧
    observeExtras c10Step2.1 c10Step1.2 = some [("a", 1), ("b", 2)] := by
  constructor <;> rfl

/-- C10 as amended: every chainable method returns a fresh configuration
object and never reassigns the receiver's own fields; `KeyValue` and
`KeyValueMap` allocate a fresh extras map when the receiver has none
(leaving the receiver's observable extras unchanged), but when the receiver
already holds a map the copy shares it, the write mutates it in place, and
the addition becomes observable through the receiver. -/
theorem c10_builder_copy_semantics (h : Heap) (c : RunnerConfig) (k : String) (v : Nat)
    (kvs : Extras) (nm sc : String) (t : Int) (bs cx : Bool) :
    ((c.withFileName nm).fileName = nm ∧ (c.withFileName nm).extras = c.extras ∧
      (c.withScript sc).script = sc ∧ (c.withScript sc).extras = c.extras ∧
      (c.withTimeout t).timeout = t ∧ (c.withTimeout t).extras = c.extras ∧
      (c.withContext cx).extras = c.extras ∧ (c.withInspect bs).extras = c.extras ∧
      (c.withInspectCond).extras = c.extras ∧ (c.withStarbox bs).extras = c.extras) ∧
    ((c.keyValue h k v).2.fileName = c.fileName ∧
      (c.keyValue h k v).2.script = c.script ∧
      (c.keyValue h k v).2.timeout = c.timeout ∧
      (c.keyValue h k v).2.boxSet = c.boxSet ∧
      (c.keyValue h k v).2.ctxSet = c.ctxSet ∧
      (c.keyValue h k v).2.condSet = c.condSet) ∧
    observeExtras (c.keyValue h k v).1 (c.keyValue h k v).2
      = some (writeAssoc ((observeExtras h c).getD []) k v) ∧
    (c.extras = none → observeExtras (c.keyValue h k v).1 c = observeExtras h c) ∧
    (∀ r, c.extras = some r → (c.keyValue h k v).2 = c ∧
      observeExtras (c.keyValue h k v).1 c = some (writeAssoc (heapGet h r) k v)) ∧
    (∀ r, c.extras = some r → (c.keyValueMap h kvs).2 = c ∧
      observeExtras (c.keyValueMap h kvs).1 c
        = some (kvs.foldl (fun m p => writeAssoc m p.1 p.2) (heapGet h r))) := by
  refine ⟨⟨rfl, rfl, rfl, rfl, rfl, rfl, rfl, rfl, rfl, rfl⟩, ?_, ?_, ?_, ?_, ?_⟩
  · cases hx : c.extras <;>
      simp [RunnerConfig.keyValue, hx]
  · cases hx : c.extras <;>
      simp [RunnerConfig.keyValue, hx, observeExtras, heapGet_heapSet_self]
  · intro hx
    simp [RunnerConfig.keyValue, hx, observeExtras]
  · intro r hx
    simp [RunnerConfig.keyValue, hx, observeExtras, heapGet_heapSet_self]
  · intro r hx
    simp [RunnerConfig.keyValueMap, hx, observeExtras, heapGet_heapSet_self]

/-- Witness for the amended C10 at the concrete two-step chain of the
counterexample. -/
theorem c10_builder_copy_semantics_witness :
    c10Step2.2 = c10Step1.2 ∧
    observeExtras c10Step2.1 c10Step1.2 = some (writeAssoc (heapGet c10Step1.1 0) "b" 2) :=
  (c10_builder_copy_semantics c10Step1.1 c10Step1.2 "b" 2 [] "" "" 0 false false).2.2.2.2.1
    0 rfl

/-- C1: when a name is both registered as a custom loader and present in the
resolved built-in name set, the custom registration contributes nothing: its
name is not in the custom step's output, the final lazyload binding for the
name is the built-in step's binding, the custom loader value is in neither
final collection, and it is never invoked during materialisation (resolution
itself never applies custom loaders).  The loader-distinctness hypotheses
say the registered loader value is its own function, shared with no built-in
loader, no other registration, and no resolver result. -/
theorem c1_builtin_priority {fullNames : List ModName} {b : Box} {name : ModName} {l : Loader}
    {sp : List Loader} {sl : LoaderMap} {sn : List ModName}
    {pre : List Loader} {lazy : LoaderMap} {names tr : List ModName}
    (hstar : extractStarletModules fullNames b.userLog b.modSet b.namedMods = .ok (sp, sl, sn))
    (_hreg : (name, l) ∈ b.loadMods)
    (hmem : name ∈ sn)
    (hres : extractModLoaders fullNames b = (.ok (pre, lazy, names), tr))
    (huniq : ∀ p ∈ b.loadMods, p.2 = l → p.1 = name)
    (hnb : ∀ n, l ≠ Loader.builtin n)
    (hnu : l ≠ Loader.userlog)
    (hnd : ∀ f, b.dynMods = some f → ∀ n v, f n = .ok (some v) → v ≠ l) :
    name ∉ (b.loadMods.filter fun p => p.1 ∉ sn).map (·.1) ∧
    lookupLoader lazy name = lookupLoader sl name ∧
    l ∉ pre ∧
    (∀ p ∈ lazy, p.2 ≠ l) ∧
    materializeInvocations pre lazy l = 0 := by
  obtain ⟨sp', sl', sn', dp, dl, dn, hstar', hdyn, hpre, hlazy, hnames⟩ :=
    extractModLoaders_ok hres
  rw [hstar] at hstar'
  simp only [Except.ok.injEq, Prod.mk.injEq] at hstar'
  obtain ⟨h1, h2, h3⟩ := hstar'
  subst h1 h2 h3
  have hcusname : name ∉ (b.loadMods.filter fun p => p.1 ∉ sn).map (·.1) := by
    intro hk
    rcases List.mem_map.mp hk with ⟨p, hpf, hp1⟩
    obtain ⟨-, hcond⟩ := List.mem_filter.mp hpf
    exact (by simpa using hcond : p.1 ∉ sn) (hp1 ▸ hmem)
  have hspnotl : l ∉ sp := by
    intro hl
    rcases extractStarletModules_loader_form hstar l hl with ⟨n, hn⟩ | hn
    · exact hnb n hn
    · exact hnu hn
  have hcpnotl : l ∉ (b.loadMods.filter fun p => p.1 ∉ sn).map (·.2) := by
    intro hl
    rcases List.mem_map.mp hl with ⟨p, hpf, hp2⟩
    obtain ⟨hpm, hcond⟩ := List.mem_filter.mp hpf
    exact (by simpa using hcond : p.1 ∉ sn) (huniq p hpm hp2 ▸ hmem)
  have hdpnotl : l ∉ dp := by
    intro hl
    cases hdm : b.dynMods with
    | none =>
      rw [hdm] at hdyn
      obtain ⟨hdp, -, -, -⟩ := extractDynamicModules_none_ok hdyn
      rw [hdp] at hl
      exact absurd hl (List.not_mem_nil l)
    | some f =>
      rw [hdm] at hdyn
      obtain ⟨n, -, hfn⟩ := extractDynamicModules_pre_values hdyn l hl
      exact hnd f hdm n l hfn rfl
  have hdlnotl : ∀ p ∈ dl, p.2 ≠ l := by
    intro p hp hp2
    cases hdm : b.dynMods with
    | none =>
      rw [hdm] at hdyn
      obtain ⟨-, hdl, -, -⟩ := extractDynamicModules_none_ok hdyn
      rw [hdl] at hp
      exact absurd hp (List.not_mem_nil p)
    | some f =>
      rw [hdm] at hdyn
      exact hnd f hdm p.1 p.2 (extractDynamicModules_entries hdyn p hp) hp2
  have hlazyval : ∀ p ∈ lazy, p.2 ≠ l := by
    intro p hp hp2
    rw [hlazy] at hp
    rcases List.mem_append.mp hp with hp' | hp'
    · rcases List.mem_append.mp hp' with hp'' | hp''
      · have : p.2 ∈ sl.map (·.2) := List.mem_map_of_mem (·.2) hp''
        rw [extractStarletModules_values hstar] at this
        exact hspnotl (hp2 ▸ this)
      · obtain ⟨hpm, hcond⟩ := List.mem_filter.mp hp''
        exact (by simpa using hcond : p.1 ∉ sn) (huniq p hpm hp2 ▸ hmem)
    · exact hdlnotl p hp' hp2
  have hprenotl : l ∉ pre := by
    intro hl
    rw [hpre] at hl
    rcases List.mem_append.mp hl with hl' | hl'
    · rcases List.mem_append.mp hl' with hl'' | hl''
      · exact hspnotl hl''
      · exact hcpnotl hl''
    · exact hdpnotl hl'
  refine ⟨hcusname, ?_, hprenotl, hlazyval, ?_⟩
  · have hsome : (lookupLoader sl name).isSome := by
      rw [lookupLoader_isSome]
      exact ((extractStarletModules_keys_perm hstar).mem_iff).mpr hmem
    obtain ⟨v, hv⟩ := Option.isSome_iff_exists.mp hsome
    rw [hlazy, List.append_assoc, lookupLoader_append, hv]
  · unfold materializeInvocations
    rw [List.count_eq_zero.mpr hprenotl, List.count_eq_zero.mpr ?_]
    intro hl
    rcases List.mem_map.mp hl with ⟨p, hp, hp2⟩
    exact hlazyval p hp hp2

/-- Witness for C1: the built-in loader for `base64` wins; the custom
loader appears nowhere and is invoked zero times. -/
theorem c1_builtin_priority_witness :
    "base64" ∉ (c1Box.loadMods.filter fun p => p.1 ∉ ["base64"]).map (·.1) ∧
    lookupLoader [("base64", Loader.builtin "base64")] "base64"
      = lookupLoader [("base64", Loader.builtin "base64")] "base64" ∧
    Loader.custom 0 ∉ [Loader.builtin "base64"] ∧
    (∀ p ∈ [("base64", Loader.builtin "base64")], p.2 ≠ Loader.custom 0) ∧
    materializeInvocations [Loader.builtin "base64"] [("base64", Loader.builtin "base64")]
      (Loader.custom 0) = 0 :=
  @c1_builtin_priority ["base64", "json"] c1Box "base64" (Loader.custom 0)
    [Loader.builtin "base64"] [("base64", Loader.builtin "base64")] ["base64"]
    [Loader.builtin "base64"] [("base64", Loader.builtin "base64")] ["base64"] []
    rfl (by decide) (by decide) rfl (by decide)
    (fun n h => Loader.noConfusion h) (fun h => Loader.noConfusion h)
    (fun f hf => Option.noConfusion hf)

/-- C9: a custom loader registered once under a name that resolution keeps
(the name is not claimed by the built-in step) ends up once in the preload
list and once in the lazyload map, so it is invoked exactly twice over the
first execution: once when the preload list is materialised and once when
the lazyload map entry is materialised.  The loader-distinctness hypotheses
say the registered loader value is shared with no built-in loader and no
resolver result. -/
theorem c9_double_materialization {fullNames : List ModName} {b : Box} {name : ModName}
    {l : Loader} {sp : List Loader} {sl : LoaderMap} {sn : List ModName}
    {pre : List Loader} {lazy : LoaderMap} {names tr : List ModName}
    (hstar : extractStarletModules fullNames b.userLog b.modSet b.namedMods = .ok (sp, sl, sn))
    (hload : b.loadMods = [(name, l)])
    (hname : name ∉ sn)
    (hres : extractModLoaders fullNames b = (.ok (pre, lazy, names), tr))
    (hnb : ∀ n, l ≠ Loader.builtin n)
    (hnu : l ≠ Loader.userlog)
    (hnd : ∀ f, b.dynMods = some f → ∀ n v, f n = .ok (some v) → v ≠ l) :
    materializeInvocations pre lazy l = 2 := by
  obtain ⟨sp', sl', sn', dp, dl, dn, hstar', hdyn, hpre, hlazy, hnames⟩ :=
    extractModLoaders_ok hres
  rw [hstar] at hstar'
  simp only [Except.ok.injEq, Prod.mk.injEq] at hstar'
  obtain ⟨h1, h2, h3⟩ := hstar'
  subst h1 h2 h3
  have hfilter : (b.loadMods.filter fun p => p.1 ∉ sn) = [(name, l)] := by
    rw [hload]
    simp [hname]
  have hspcount : sp.count l = 0 := by
    rw [List.count_eq_zero]
    intro hl
    rcases extractStarletModules_loader_form hstar l hl with ⟨n, hn⟩ | hn
    · exact hnb n hn
    · exact hnu hn
  have hdpcount : dp.count l = 0 := by
    rw [List.count_eq_zero]
    intro hl
    cases hdm : b.dynMods with
    | none =>
      rw [hdm] at hdyn
      obtain ⟨hdp, -, -, -⟩ := extractDynamicModules_none_ok hdyn
      rw [hdp] at hl
      exact absurd hl (List.not_mem_nil l)
    | some f =>
      rw [hdm] at hdyn
      obtain ⟨n, -, hfn⟩ := extractDynamicModules_pre_values hdyn l hl
      exact hnd f hdm n l hfn rfl
  have hslcount : (sl.map (·.2)).count l = 0 := by
    rw [extractStarletModules_values hstar]
    exact hspcount
  have hdlcount : (dl.map (·.2)).count l = 0 := by
    rw [List.count_eq_zero]
    intro hl
    rcases List.mem_map.mp hl with ⟨p, hp, hp2⟩
    cases hdm : b.dynMods with
    | none =>
      rw [hdm] at hdyn
      obtain ⟨-, hdl, -, -⟩ := extractDynamicModules_none_ok hdyn
      rw [hdl] at hp
      exact absurd hp (List.not_mem_nil p)
    | some f =>
      rw [hdm] at hdyn
      exact hnd f hdm p.1 p.2 (extractDynamicModules_entries hdyn p hp) hp2
  unfold materializeInvocations
  rw [hpre, hlazy, hfilter]
  rw [List.count_append, List.count_append, List.map_append, List.map_append,
    List.count_append, List.count_append]
  simp only [List.map_cons, List.map_nil]
  rw [hspcount, hdpcount, hslcount, hdlcount]
  simp [List.count_cons]

/-- Witness for C9: the loader appears once in the preload list and once in
the lazyload map, two materialisation invocations in total. -/
theorem c9_double_materialization_witness :
    materializeInvocations [Loader.custom 0] [("mine", Loader.custom 0)]
      (Loader.custom 0) = 2 :=
  @c9_double_materialization [] c9Box "mine" (Loader.custom 0)
    [] [] [] [Loader.custom 0] [("mine", Loader.custom 0)] ["mine"] []
    rfl rfl (by decide) rfl
    (fun n h => Loader.noConfusion h) (fun h => Loader.noConfusion h)
    (fun f hf => Option.noConfusion hf)

/-- C2 counterexample, refuting both halves of the claim as stated: (a) the
explicit name `foo`, matched by no other source, is registered twice, and
the resolver is invoked twice for it, not exactly once; (b) with no
resolver, resolution fails with the bare sentinel `module not found`, whose
message does not name the module: `bar` occurs nowhere in it. -/
theorem c2_counterexample :
    ((extractModLoaders [] c2BoxDup).2.count "foo" = 2) ∧
    (extractModLoaders [] c2BoxNoResolver).1 = .error "module not found" ∧
    ¬ ("bar".toList <:+: "module not found".toList) := by
  refine ⟨rfl, rfl, by decide⟩

/-- C2 as amended: an explicitly added name matched by neither the built-in
step nor the custom step triggers one dynamic-resolver invocation per
occurrence of the name among the explicitly added names — exactly once when
it was added once; when no resolver is configured, resolution fails
immediately with the sentinel "module not found" error, which does not name
the module. -/
theorem c2_dynamic_fallback {fullNames : List ModName} {b : Box}
    {sp : List Loader} {sl : LoaderMap} {sn : List ModName}
    (hstar : extractStarletModules fullNames b.userLog b.modSet b.namedMods = .ok (sp, sl, sn)) :
    (∀ f pre lazy names tr, b.dynMods = some f →
      extractModLoaders fullNames b = (.ok (pre, lazy, names), tr) →
      ∀ name, name ∉ sn → name ∉ (b.loadMods.filter fun p => p.1 ∉ sn).map (·.1) →
        tr.count name = b.namedMods.count name) ∧
    (b.dynMods = none →
      (∃ name ∈ b.namedMods,
        name ∉ sn ∧ name ∉ (b.loadMods.filter fun p => p.1 ∉ sn).map (·.1)) →
      extractModLoaders fullNames b = (.error "module not found", [])) := by
  constructor
  · intro f pre lazy names tr hf hres name hns hnc
    obtain ⟨sp', sl', sn', dp, dl, dn, hstar', hdyn, -, -, -⟩ := extractModLoaders_ok hres
    rw [hstar] at hstar'
    simp only [Except.ok.injEq, Prod.mk.injEq] at hstar'
    obtain ⟨h1, h2, h3⟩ := hstar'
    subst h1 h2 h3
    rw [hf] at hdyn
    rw [extractDynamicModules_trace_count hdyn name,
      if_neg (by
        intro hmem
        rcases List.mem_append.mp hmem with hm | hm
        · exact hns hm
        · exact hnc hm)]
  · intro hf hex
    obtain ⟨name, hmem, hns, hnc⟩ := hex
    have hdynres : extractDynamicModules b.dynMods b.namedMods
        (sn ++ (b.loadMods.filter fun p => p.1 ∉ sn).map (·.1))
        = (.error "module not found", []) := by
      rw [hf]
      exact extractDynamicModules_none
        ⟨name, hmem, by
          intro hm
          rcases List.mem_append.mp hm with hm' | hm'
          · exact hns hm'
          · exact hnc hm'⟩
    simp only [extractModLoaders, hstar, extractLocalModules, hdynres]

/-- Witness for the amended C2: with the duplicate registration of `foo`,
the trace counts one resolver invocation per occurrence (two). -/
theorem c2_dynamic_fallback_witness :
    (["foo", "foo"] : List ModName).count "foo" = c2BoxDup.namedMods.count "foo" :=
  (@c2_dynamic_fallback [] c2BoxDup [] [] [] rfl).1 c2Resolver
    [Loader.dyn 0, Loader.dyn 0] [("foo", Loader.dyn 0)] ["foo"] ["foo", "foo"]
    rfl rfl "foo" (by decide) (by decide)

/-- C5 counterexample: with a duplicated dynamically-resolved explicit name,
resolution succeeds with the resolved loader appearing twice in the preload
list but once in the lazyload map — the two collections no longer describe
the same entries ("appears exactly once" fails). -/
theorem c5_counterexample :
    (extractModLoaders [] c5Box).1
      = .ok ([Loader.dyn 0, Loader.dyn 0], [("foo", Loader.dyn 0)], ["foo"]) ∧
    ("foo", Loader.dyn 0) ∈ [("foo", Loader.dyn 0)] ∧
    [Loader.dyn 0, Loader.dyn 0].count (Loader.dyn 0) ≠ 1 := by
  refine ⟨rfl, by decide, by decide⟩

/-- C5 as amended: provided no explicit name that falls through to the
dynamic step is registered twice (and custom registrations have unique
names, as the Go map guarantees), the final preload list is exactly the
lazyload map's values in order — every map entry corresponds to exactly one
preload entry and vice versa — and the map's key set is exactly the
resolved name set, with no duplicate keys. -/
theorem c5_collections_consistent {fullNames : List ModName} {b : Box}
    {sp : List Loader} {sl : LoaderMap} {sn : List ModName}
    {pre : List Loader} {lazy : LoaderMap} {names tr : List ModName}
    (hstar : extractStarletModules fullNames b.userLog b.modSet b.namedMods = .ok (sp, sl, sn))
    (hres : extractModLoaders fullNames b = (.ok (pre, lazy, names), tr))
    (hkeys : (b.loadMods.map (·.1)).Nodup)
    (hcount : ∀ n, n ∈ b.namedMods → n ∉ fullNames → lookupLoader b.loadMods n = none →
      b.namedMods.count n ≤ 1) :
    pre = lazy.map (·.2) ∧
    (∀ n, n ∈ lazy.map (·.1) ↔ n ∈ names) ∧
    (lazy.map (·.1)).Nodup := by
  obtain ⟨sp', sl', sn', dp, dl, dn, hstar', hdyn, hpre, hlazy, hnames⟩ :=
    extractModLoaders_ok hres
  rw [hstar] at hstar'
  simp only [Except.ok.injEq, Prod.mk.injEq] at hstar'
  obtain ⟨h1, h2, h3⟩ := hstar'
  subst h1 h2 h3
  have hc : ∀ n, n ∉ sn ++ (b.loadMods.filter fun p => p.1 ∉ sn).map (·.1) →
      b.namedMods.count n ≤ 1 := by
    intro n hn
    have hnsn : n ∉ sn := fun hs => hn (List.mem_append.mpr (Or.inl hs))
    by_cases hm : n ∈ b.namedMods
    · have hnf : n ∉ fullNames := by
        intro hf
        obtain ⟨set0, hget, hsn, -, -⟩ := extractStarletModules_ok hstar
        exact hnsn (by
          rw [hsn, mem_appendUniques]
          exact Or.inr (List.mem_filter.mpr ⟨hf, by simpa using hm⟩))
      have hlk : lookupLoader b.loadMods n = none := by
        rw [lookupLoader_eq_none]
        intro hkmem
        rcases List.mem_map.mp hkmem with ⟨p, hp, hp1⟩
        exact hn (List.mem_append.mpr (Or.inr (List.mem_map.mpr
          ⟨p, List.mem_filter.mpr ⟨hp, by simpa [hp1] using hnsn⟩, hp1⟩)))
      exact hcount n hm hnf hlk
    · rw [List.count_eq_zero.mpr hm]
      omega
  have hdfacts : dp = dl.map (·.2) ∧ dn = dl.map (·.1) ∧ (dl.map (·.1)).Nodup ∧
      (∀ k ∈ dl.map (·.1), k ∉ sn ++ (b.loadMods.filter fun p => p.1 ∉ sn).map (·.1)) := by
    cases hdm : b.dynMods with
    | none =>
      rw [hdm] at hdyn
      obtain ⟨h1, h2, h3, -⟩ := extractDynamicModules_none_ok hdyn
      subst h1 h2 h3
      exact ⟨rfl, rfl, List.nodup_nil, fun k hk => absurd hk (List.not_mem_nil k)⟩
    | some f =>
      rw [hdm] at hdyn
      obtain ⟨a1, a2, a3⟩ := extractDynamicModules_aligned hdyn hc
      exact ⟨a1, a2, a3, fun k hk => (extractDynamicModules_keys hdyn k hk).2⟩
  obtain ⟨hdp, hdn, hdlnodup, hdlkeys⟩ := hdfacts
  have hclkeys : ((b.loadMods.filter fun p => p.1 ∉ sn).map (·.1)).Nodup :=
    ((List.filter_sublist b.loadMods).map (·.1)).nodup hkeys
  have hslkeys : (sl.map (·.1)).Nodup :=
    ((extractStarletModules_keys_perm hstar).nodup_iff).mpr (extractStarletModules_nodup hstar)
  have hslmem : ∀ k, k ∈ sl.map (·.1) ↔ k ∈ sn :=
    fun k => (extractStarletModules_keys_perm hstar).mem_iff
  refine ⟨?_, ?_, ?_⟩
  · rw [hpre, hlazy, List.map_append, List.map_append,
      extractStarletModules_values hstar, hdp]
  · intro n
    rw [hlazy, hnames, mem_sortDedup, List.map_append, List.map_append]
    rw [List.mem_append, List.mem_append, List.mem_append, List.mem_append,
      hslmem n, hdn]
  · rw [hlazy, List.map_append, List.map_append]
    rw [List.nodup_append, List.nodup_append]
    refine ⟨⟨hslkeys, hclkeys, fun k hk1 hk2 => ?_⟩, hdlnodup, fun k hk1 hk2 => ?_⟩
    · rcases List.mem_map.mp hk2 with ⟨p, hp, hp1⟩
      obtain ⟨-, hcond⟩ := List.mem_filter.mp hp
      exact (by simpa using hcond : p.1 ∉ sn) (hp1 ▸ (hslmem k).mp hk1)
    · rcases List.mem_append.mp hk1 with hk | hk
      · exact hdlkeys k hk2 (List.mem_append.mpr (Or.inl ((hslmem k).mp hk)))
      · exact hdlkeys k hk2 (List.mem_append.mpr (Or.inr hk))

/-- Witness for the amended C5: the preload list is the lazyload values in
order and the key list is duplicate-free. -/
theorem c5_collections_consistent_witness :
    ([Loader.builtin "base64", Loader.custom 0, Loader.dyn 0] : List Loader)
      = ([("base64", Loader.builtin "base64"), ("mine", Loader.custom 0),
          ("foo", Loader.dyn 0)] : LoaderMap).map (·.2) ∧
    (([("base64", Loader.builtin "base64"), ("mine", Loader.custom 0),
        ("foo", Loader.dyn 0)] : LoaderMap).map (·.1)).Nodup :=
  ⟨(@c5_collections_consistent ["base64"] c5WBox
      [Loader.builtin "base64"] [("base64", Loader.builtin "base64")] ["base64"]
      [Loader.builtin "base64", Loader.custom 0, Loader.dyn 0]
      [("base64", Loader.builtin "base64"), ("mine", Loader.custom 0), ("foo", Loader.dyn 0)]
      ["base64", "foo", "mine"] ["foo"]
      rfl rfl (by decide)
      (by intro n hn h1 h2; fin_cases hn <;> decide)).1,
   (@c5_collections_consistent ["base64"] c5WBox
      [Loader.builtin "base64"] [("base64", Loader.builtin "base64")] ["base64"]
      [Loader.builtin "base64", Loader.custom 0, Loader.dyn 0]
      [("base64", Loader.builtin "base64"), ("mine", Loader.custom 0), ("foo", Loader.dyn 0)]
      ["base64", "foo", "mine"] ["foo"]
      rfl rfl (by decide)
      (by intro n hn h1 h2; fin_cases hn <;> decide)).2.2⟩
